import Mathlib

/-!
Verification of the ThreadMeister add-in's geometric reasoning core
(`ThreadMeister.py`) via a shallow embedding in Lean 4.

The host CAD kernel (Fusion 360) is out of scope per the design: all kernel
queries (areas, centroids, bounding boxes, point containment, edge geometry)
are oracle values; we embed them as plain data or as oracle functions.
Machine floats are embedded as exact rationals; every comparison the source
performs on a square root (`Vector3D.length`, `math.sqrt`) is embedded in the
algebraically equivalent squared form so that all definitions stay executable
over `ℚ` (both sides of each such comparison are nonnegative, so squaring is
an equivalence).
-/

namespace ThreadMeister

/-- 2D point/vector in sketch coordinates (cm), mirroring `Point3D` values the
source uses with `z = 0` on the sketch plane. -/
structure Vec2 where
  x : ℚ
  y : ℚ
deriving DecidableEq, Repr

/-- 3D vector/point in world coordinates (cm), mirroring `Point3D`/`Vector3D`. -/
structure Vec3 where
  x : ℚ
  y : ℚ
  z : ℚ
deriving DecidableEq, Repr

def sub2 (a b : Vec2) : Vec2 := ⟨a.x - b.x, a.y - b.y⟩

/-- Squared 2D distance; the source compares `distanceTo` against a radius,
we compare the squares. -/
def normSq2 (v : Vec2) : ℚ := v.x * v.x + v.y * v.y

def dot3 (a b : Vec3) : ℚ := a.x * b.x + a.y * b.y + a.z * b.z

def sub3 (a b : Vec3) : Vec3 := ⟨a.x - b.x, a.y - b.y, a.z - b.z⟩

/-- Squared length of a 3D vector (`Vector3D.length ** 2` in the source). -/
def normSq3 (v : Vec3) : ℚ := dot3 v v

/-- Result of `body.pointContainment` (`adsk.fusion.PointContainment`). -/
inductive Containment where
  | inside
  | onSurface
  | outside
deriving DecidableEq, Repr

/-- `adsk.fusion.ExtentDirections`: positive or negative extrude direction. -/
inductive Dir where
  | positive
  | negative
deriving DecidableEq, Repr

/-- A bounded planar region ("profile") as reported by the kernel: its area,
centroid and bounding box are oracle-derived data (`prof.areaProperties`,
`prof.boundingBox` in `findProfileForCircle`).  `id` is object identity. -/
structure Profile where
  id : ℕ
  area : ℚ
  centroid : Vec2
  bboxMin : Vec2
  bboxMax : Vec2
deriving DecidableEq, Repr

/-- The constructed sketch circle: `parentSketch` is the identity of the sketch
owning it, `area` is the kernel-reported `target_circle.area`. -/
structure Circle where
  parentSketch : ℕ
  center : Vec2
  radius : ℚ
  area : ℚ
deriving DecidableEq, Repr

/-- A coarse-filter survivor: the `(prof, props.area, distance)` tuple built in
`findProfileForCircle`; the third component (centroid distance) is only logged,
never read again, so we keep profile and area. -/
structure Candidate where
  prof : Profile
  area : ℚ
deriving DecidableEq, Repr

/-- Python's `abs` on exact rationals, written as the sign test so that it
evaluates by kernel reduction; equal to `|q|` (`ratAbs_eq_abs` below). -/
def ratAbs (q : ℚ) : ℚ := if q < 0 then -q else q

/-- Summed area of a combination (`sum(item[1] for item in combo)`). -/
def comboArea (combo : List Candidate) : ℚ := (combo.map (·.area)).sum

/-- `difference = abs(combo_area - target_area)` for a combination. -/
def diffOf (target : ℚ) (combo : List Candidate) : ℚ := ratAbs (comboArea combo - target)

/-- Running best of the combination search: `None` before any combination is
evaluated, otherwise the best combination together with its area difference
(`best_profiles`, `best_difference`). -/
abbrev SearchState := Option (List Candidate × ℚ)

/-- One step of best-tracking: replace the best exactly when the new
combination's difference is strictly smaller (`if difference < best_difference`). -/
def updateBest (target : ℚ) (s : SearchState) (c : List Candidate) : SearchState :=
  match s with
  | none => some (c, diffOf target c)
  | some (b, d) => if diffOf target c < d then some (c, diffOf target c) else some (b, d)

/-- `best_difference <= q` — false while `best_difference` is still `inf`. -/
def bdle (s : SearchState) (q : ℚ) : Bool :=
  match s with
  | none => false
  | some (_, d) => decide (d ≤ q)

/-- Inner loop of the search (`for combo in combinations(candidates, r)`),
with the early break the instant the running best difference drops to the
near-perfect threshold `thr`.  Also returns the list of combinations that
were actually evaluated, in order. -/
def innerLoop (target thr : ℚ) :
    List (List Candidate) → SearchState → SearchState × List (List Candidate)
  | [], s => (s, [])
  | c :: cs, s =>
    let s1 := updateBest target s c
    if bdle s1 thr then (s1, [c])
    else
      let r := innerLoop target thr cs s1
      (r.1, c :: r.2)

/-- Outer loop of the search (`for r in range(1, max_profiles + 1)`), breaking
after a size whose inner loop reached the near-perfect threshold. -/
def outerLoop (target thr : ℚ) (cands : List Candidate) :
    List ℕ → SearchState → SearchState × List (List Candidate)
  | [], s => (s, [])
  | r :: rs, s =>
    let p := innerLoop target thr (List.sublistsLen r cands) s
    if bdle p.1 thr then p
    else
      let q := outerLoop target thr cands rs p.1
      (q.1, p.2 ++ q.2)

/-- Stable insertion into a list sorted by area descending
(`candidates.sort(key=lambda x: x[1], reverse=True)`). -/
def sortCandsInsert (x : Candidate) : List Candidate → List Candidate
  | [] => [x]
  | y :: ys => if y.area ≤ x.area then x :: y :: ys else y :: sortCandsInsert x ys

/-- Sort candidates by area, descending. -/
def sortCands (l : List Candidate) : List Candidate := l.foldr sortCandsInsert []

/-- The whole combination search of `findProfileForCircle`: sort candidates by
area descending, cap the combination size at `min(len(candidates), 15)`, and
run the nested loops with near-perfect threshold `target_area * 0.00003`.
Returns the final best state and the evaluated combinations. -/
def searchRun (cands : List Candidate) (target : ℚ) :
    SearchState × List (List Candidate) :=
  let sorted := sortCands cands
  let maxr := min sorted.length 15
  outerLoop target (target * (3 / 100000)) sorted (List.range' 1 maxr) none

def searchState (cands : List Candidate) (target : ℚ) : SearchState :=
  (searchRun cands target).1

def evaluatedCombos (cands : List Candidate) (target : ℚ) : List (List Candidate) :=
  (searchRun cands target).2

/-- Post-search acceptance of `findProfileForCircle`: no candidates means
`None`; otherwise accept the best combination iff `best_difference` is within
`tolerance = target_area * 0.03`, returning its profiles. -/
def resolveFromCandidates (cands : List Candidate) (target : ℚ) : Option (List Profile) :=
  if cands.isEmpty then none
  else
    match searchState cands target with
    | none => none
    | some (b, d) => if d ≤ target * (3 / 100) then some (b.map (·.prof)) else none

/-- Coarse filter of `findProfileForCircle`: reject a profile whose area
exceeds `target_area * 1.01`, whose centroid lies farther from the circle
center than the radius (compared via squares), or whose bounding box is not
inside the circle's bounding box widened by `bbox_margin = circle_radius`. -/
def coarseFilter (profiles : List Profile) (c : Circle) : List Candidate :=
  profiles.filterMap fun p =>
    if p.area > c.area * (101 / 100) then none
    else if normSq2 (sub2 p.centroid c.center) > c.radius * c.radius then none
    else if p.bboxMin.x ≥ c.center.x - c.radius * 2 ∧
            p.bboxMax.x ≤ c.center.x + c.radius * 2 ∧
            p.bboxMin.y ≥ c.center.y - c.radius * 2 ∧
            p.bboxMax.y ≤ c.center.y + c.radius * 2 then
      some ⟨p, p.area⟩
    else none

/-- `findProfileForCircle(sketch, target_circle)`: guard that the circle lives
in the given sketch, coarse-filter the sketch's profiles, then run the
combination search and the tolerance acceptance. -/
def findProfileForCircle (sketchId : ℕ) (profiles : List Profile) (c : Circle) :
    Option (List Profile) :=
  if c.parentSketch ≠ sketchId then none
  else resolveFromCandidates (coarseFilter profiles c) c.area

/-! ### Direction Inferencer (`findExtrudeDirectionFromSketch`) -/

/-- The sampling offsets `testDistances = [0.01, 0.05, 0.1, 0.2]` (cm). -/
def testDistances : List ℚ := [1/100, 5/100, 1/10, 2/10]

/-- Containment oracle along the sketch normal: `probe t` is
`targetBody.pointContainment(center3D + zAxis * t)` for signed offset `t` (cm);
the geometry of `center3D`/`zAxis` is absorbed into the oracle. -/
abbrev Probe := ℚ → Containment

/-- One direction's sampling loop: walk the test distances with the given sign
and stop at the first sample classified inside or on-surface
(`positiveIsInside` / `negativeIsInside`). -/
def entersBody (probe : Probe) (sign : ℚ) : List ℚ → Bool
  | [] => false
  | d :: ds =>
    match probe (sign * d) with
    | Containment.inside => true
    | Containment.onSurface => true
    | Containment.outside => entersBody probe sign ds

/-- `findExtrudeDirectionFromSketch`: decide the cut direction from the two
sampling passes, with the `0.001` cm (0.01 mm) secondary probe when both
directions enter the body, defaulting to positive. -/
def findExtrudeDirectionFromSketch (probe : Probe) : Option Dir :=
  let positiveIsInside := entersBody probe 1 testDistances
  let negativeIsInside := entersBody probe (-1) testDistances
  if positiveIsInside && !negativeIsInside then some Dir.positive
  else if negativeIsInside && !positiveIsInside then some Dir.negative
  else if positiveIsInside && negativeIsInside then
    let posOut := probe (1/1000) = Containment.outside
    let negOut := probe (-(1/1000)) = Containment.outside
    if posOut ∧ ¬negOut then some Dir.negative
    else if negOut ∧ ¬posOut then some Dir.positive
    else some Dir.positive
  else none

/-- Spec-side formulation of "the direction enters the body": some sample along
that direction is not strictly outside. -/
def dirEnters (probe : Probe) (sign : ℚ) : Prop :=
  ∃ d ∈ testDistances, probe (sign * d) ≠ Containment.outside

instance (probe : Probe) (sign : ℚ) : Decidable (dirEnters probe sign) := by
  unfold dirEnters; infer_instance

/-! ### Through-Bore Distance Calculator (`findDistanceThroughBody`) -/

/-- The marching loop: `for i in range(1, 1001): distance = i * 0.1`, setting
`insideBody` on the first strictly inside sample and exiting on the first
strictly outside sample after that flag is set.  `probe d` is the containment
of the sample at distance `d` (cm) along the chosen direction. -/
def throughLoop (probe : Probe) : ℕ → ℕ → Bool → Option ℚ
  | 0, _, _ => none
  | fuel + 1, i, insideBody =>
    let d : ℚ := i * (1/10)
    let c := probe d
    let insideBody2 := insideBody || decide (c = Containment.inside)
    if insideBody2 && decide (c = Containment.outside) then some d
    else throughLoop probe fuel (i + 1) insideBody2

/-- `findDistanceThroughBody`: march up to 100 cm in 0.1 cm steps; on exit add
the `0.2` cm (2 mm) margin, otherwise return the `10.0` cm (100 mm) fallback. -/
def findDistanceThroughBody (probe : Probe) : ℚ :=
  match throughLoop probe 1000 1 false with
  | some d => d + 2/10
  | none => 10

/-- Containment oracle of a slab body of thickness `T` (cm) along the probe
axis, starting at the anchor: samples strictly between the faces are inside,
samples on the far face are on-surface, samples beyond it are outside. -/
def thickBody (T : ℚ) : Probe := fun d =>
  if d < T then Containment.inside
  else if d = T then Containment.onSurface
  else Containment.outside

/-! ### Feature Edge Locator (`findChamferEdge`, `addBottomRadiusToBlindHole`) -/

/-- `edge.geometry`: either a circular curve with its oracle-reported center,
radius and (unit) normal, or some other curve type. -/
inductive Curve3D where
  | circle (center : Vec3) (radius : ℚ) (normal : Vec3)
  | other
deriving DecidableEq, Repr

/-- A body edge with its kernel-reported geometry; `id` is object identity. -/
structure Edge where
  id : ℕ
  geom : Curve3D
deriving DecidableEq, Repr

/-- Filter pipeline of `findChamferEdge`: circular curve, radius within
`0.001` cm, `abs` dot with the sketch normal at least `0.99`, and
`vecToEdge.length - abs(projection) <= 0.01` — embedded in the equivalent
squared form `normSq vec <= (abs proj + 0.01)^2`.  Each survivor is paired
with `abs(projection)`, its axial distance from the sketch plane. -/
def chamferCandidates (edges : List Edge) (center3D zAxis : Vec3) (expectedRadius : ℚ) :
    List (Edge × ℚ) :=
  edges.filterMap fun e =>
    match e.geom with
    | Curve3D.circle ec er en =>
      if ratAbs (er - expectedRadius) > 1/1000 then none
      else if ratAbs (dot3 en zAxis) < 99/100 then none
      else
        let vecToEdge := sub3 ec center3D
        let projection := dot3 vecToEdge zAxis
        if normSq3 vecToEdge > (ratAbs projection + 1/100) * (ratAbs projection + 1/100) then
          none
        else some (e, ratAbs projection)
    | Curve3D.other => none

/-- Filter pipeline of `addBottomRadiusToBlindHole`: circular curve, radius
within `0.005` cm, `abs` dot at least `0.95`, and true perpendicular distance
from the axis `sqrt(max(0, len^2 - proj^2)) <= 0.05` — embedded as
`len^2 - proj^2 <= 0.05^2`.  Survivors are paired with `abs` axial distance. -/
def bottomCandidates (edges : List Edge) (center3D zAxis : Vec3) (expectedRadius : ℚ) :
    List (Edge × ℚ) :=
  edges.filterMap fun e =>
    match e.geom with
    | Curve3D.circle ec er en =>
      if ratAbs (er - expectedRadius) > 5/1000 then none
      else if ratAbs (dot3 en zAxis) < 95/100 then none
      else
        let vecToEdge := sub3 ec center3D
        let distanceAlongNormal := ratAbs (dot3 vecToEdge zAxis)
        if normSq3 vecToEdge - distanceAlongNormal * distanceAlongNormal > 1/400 then none
        else some (e, distanceAlongNormal)
    | Curve3D.other => none

/-- First element attaining the minimum key: the head of the source's stable
ascending sort (`candidateEdges.sort(key=lambda x: x[1])`). -/
def pickFirstMin : List (Edge × ℚ) → Option (Edge × ℚ)
  | [] => none
  | x :: xs => some (xs.foldl (fun b y => if y.2 < b.2 then y else b) x)

/-- First element attaining the maximum key: the head of the source's stable
descending sort (`candidateEdges.sort(key=lambda x: x[1], reverse=True)`). -/
def pickFirstMax : List (Edge × ℚ) → Option (Edge × ℚ)
  | [] => none
  | x :: xs => some (xs.foldl (fun b y => if b.2 < y.2 then y else b) x)

/-- `findChamferEdge`: entry-mode selection — the surviving candidate closest
to the sketch plane. -/
def findChamferEdge (edges : List Edge) (center3D zAxis : Vec3) (expectedRadius : ℚ) :
    Option Edge :=
  (pickFirstMin (chamferCandidates edges center3D zAxis expectedRadius)).map (·.1)

/-- Edge-selection portion of `addBottomRadiusToBlindHole`: bottom-mode
selection — the surviving candidate farthest from the sketch plane (the
subsequent kernel fillet call is outside the embedding). -/
def addBottomRadiusToBlindHole (edges : List Edge) (center3D zAxis : Vec3)
    (expectedRadius : ℚ) : Option Edge :=
  (pickFirstMax (bottomCandidates edges center3D zAxis expectedRadius)).map (·.1)

/-- True squared perpendicular distance of an edge center from the bore axis
(for a unit axis direction), used to state what the spec's axis test asks for. -/
def axisDistSq (center3D zAxis ec : Vec3) : ℚ :=
  normSq3 (sub3 ec center3D) - dot3 (sub3 ec center3D) zAxis * dot3 (sub3 ec center3D) zAxis

/-! ### Hole Creation Orchestrator (`CommandExecuteHandler.notify`) -/

/-- Model state threaded through the per-point loop: the identities of the
constructed circles currently present in the sketch, plus the success and
failure counters. -/
structure OrchState where
  circles : List ℕ
  successCount : ℕ
  failedCount : ℕ
deriving DecidableEq, Repr

/-- One iteration of the per-point loop in `CommandExecuteHandler.notify`,
with profile resolution and direction inference abstracted as oracles keyed by
the point: construct the circle, and on a `None` from either stage delete it
(`circle.deleteMe()`), count the point failed, and continue; otherwise the
point succeeds (cut/chamfer/fillet are kernel calls outside the embedding). -/
def processPoint (profileOf : ℕ → Option (List Profile)) (dirOf : ℕ → Option Dir)
    (st : OrchState) (pid : ℕ) : OrchState :=
  let circles := st.circles ++ [pid]
  match profileOf pid with
  | none => ⟨circles.erase pid, st.successCount, st.failedCount + 1⟩
  | some _ =>
    match dirOf pid with
    | none => ⟨circles.erase pid, st.successCount, st.failedCount + 1⟩
    | some _ => ⟨circles, st.successCount + 1, st.failedCount⟩

/-- The whole per-point loop over the selected points. -/
def runPoints (profileOf : ℕ → Option (List Profile)) (dirOf : ℕ → Option Dir)
    (st : OrchState) (pts : List ℕ) : OrchState :=
  pts.foldl (processPoint profileOf dirOf) st

/-- A point fails at one of the two resolution stages: profile resolution
returns `None`, or it succeeds and direction inference returns `None`. -/
def pointFails (profileOf : ℕ → Option (List Profile)) (dirOf : ℕ → Option Dir)
    (pid : ℕ) : Bool :=
  match profileOf pid with
  | none => true
  | some _ => (dirOf pid).isNone

/-! ### Insert catalog and blind-hole cut parameters -/

/-- The default CNC Kitchen insert catalog (`get_default_inserts` /
module-level `INSERT_SPECS`): name ↦ (hole diameter mm, insert length mm,
min wall mm). -/
def INSERT_SPECS : List (String × ℚ × ℚ × ℚ) :=
  [ ("M2 x 3mm", (16/5, 3, 3/2))
  , ("M2.5 x 4mm", (4, 4, 3/2))
  , ("M3 x 3mm (short)", (22/5, 3, 8/5))
  , ("M3 x 4mm (short)", (22/5, 4, 8/5))
  , ("M3 x 5.7mm (standard)", (22/5, 57/10, 8/5))
  , ("M4 x 4mm (short)", (28/5, 4, 2))
  , ("M4 x 8.1mm (standard)", (28/5, 81/10, 2))
  , ("M5 x 5.8mm (short)", (32/5, 29/5, 5/2))
  , ("M5 x 9.5mm (standard)", (32/5, 19/2, 5/2))
  , ("M6 x 12.7mm", (8, 127/10, 3))
  , ("M8 x 12.7mm", (97/10, 127/10, 4))
  , ("M10 x 12.7mm", (12, 127/10, 5))
  , ("1/4\"-20 x 12.7mm (camera)", (8, 127/10, 3)) ]

/-- Blind-hole cut parameters computed in `CommandExecuteHandler.notify`:
look up the insert, convert `radius = holeDia / 2 / 10` (mm→cm),
`diameter = radius * 2`, and `holeDepth = (insertLen + extra) / 10` (mm→cm).
Returns `(depth_cm, diameter_cm)`. -/
def blindHoleCut (specs : List (String × ℚ × ℚ × ℚ)) (name : String) (extraDepth : ℚ) :
    Option (ℚ × ℚ) :=
  match specs.lookup name with
  | none => none
  | some (holeDia, insertLen, _) =>
    let radius := holeDia / 2 / 10
    let diameter := radius * 2
    some ((insertLen + extraDepth) / 10, diameter)

/-! ### Lemmas about the combination search -/

/-- `best_difference <= q`, as a proposition on the search state. -/
def stateLE (s : SearchState) (q : ℚ) : Prop := ∃ b d, s = some (b, d) ∧ d ≤ q

/-- The tracked difference is the difference of the tracked best combination. -/
def stateInv (target : ℚ) (s : SearchState) : Prop :=
  ∀ b d, s = some (b, d) → d = diffOf target b

lemma bdle_iff_stateLE (s : SearchState) (q : ℚ) : bdle s q = true ↔ stateLE s q := by
  cases s with
  | none => simp [bdle, stateLE]
  | some p =>
    obtain ⟨b, d⟩ := p
    simp only [bdle, decide_eq_true_eq, stateLE]
    constructor
    · intro h
      exact ⟨b, d, rfl, h⟩
    · rintro ⟨b1, d1, heq, h⟩
      simp only [Option.some.injEq, Prod.mk.injEq] at heq
      rw [heq.2]
      exact h

lemma stateInv_none (target : ℚ) : stateInv target none := by
  intro b d h
  cases h

lemma stateInv_updateBest {target : ℚ} {s : SearchState} (c : List Candidate)
    (h : stateInv target s) : stateInv target (updateBest target s c) := by
  cases s with
  | none =>
    intro b d hbd
    rw [show updateBest target none c = some (c, diffOf target c) from rfl] at hbd
    simp only [Option.some.injEq, Prod.mk.injEq] at hbd
    rw [← hbd.1, ← hbd.2]
  | some p =>
    obtain ⟨b0, d0⟩ := p
    intro b d hbd
    simp only [updateBest] at hbd
    split at hbd
    · simp only [Option.some.injEq, Prod.mk.injEq] at hbd
      rw [← hbd.1, ← hbd.2]
    · simp only [Option.some.injEq, Prod.mk.injEq] at hbd
      rw [← hbd.1, ← hbd.2]
      exact h b0 d0 rfl

lemma stateLE_updateBest_self (target : ℚ) (s : SearchState) (c : List Candidate) :
    stateLE (updateBest target s c) (diffOf target c) := by
  cases s with
  | none => exact ⟨c, diffOf target c, rfl, le_refl _⟩
  | some p =>
    obtain ⟨b0, d0⟩ := p
    simp only [updateBest]
    split
    · exact ⟨c, diffOf target c, rfl, le_refl _⟩
    · exact ⟨b0, d0, rfl, le_of_not_lt (by assumption)⟩

lemma stateLE_updateBest_mono {s : SearchState} {q : ℚ} (target : ℚ) (c : List Candidate)
    (h : stateLE s q) : stateLE (updateBest target s c) q := by
  obtain ⟨b, d, hs, hle⟩ := h
  subst hs
  simp only [updateBest]
  split
  · exact ⟨c, diffOf target c, rfl, le_trans (le_of_lt (by assumption)) hle⟩
  · exact ⟨b, d, rfl, hle⟩

lemma stateLE_updateBest_cases {target q : ℚ} {s : SearchState} {c : List Candidate}
    (h : stateLE (updateBest target s c) q) : stateLE s q ∨ diffOf target c ≤ q := by
  cases s with
  | none =>
    obtain ⟨b, d, hs, hle⟩ := h
    simp only [updateBest, Option.some.injEq, Prod.mk.injEq] at hs
    right
    rw [hs.2]
    exact hle
  | some p =>
    obtain ⟨b0, d0⟩ := p
    obtain ⟨b, d, hs, hle⟩ := h
    simp only [updateBest] at hs
    split at hs
    · simp only [Option.some.injEq, Prod.mk.injEq] at hs
      right
      rw [hs.2]
      exact hle
    · simp only [Option.some.injEq, Prod.mk.injEq] at hs
      left
      exact ⟨b0, d0, rfl, by rw [hs.2]; exact hle⟩

lemma updateBest_isSome (target : ℚ) (s : SearchState) (c : List Candidate) :
    (updateBest target s c).isSome := by
  cases s with
  | none => rfl
  | some p =>
    obtain ⟨b0, d0⟩ := p
    simp only [updateBest]
    split <;> rfl

lemma stateLE_of_le {s : SearchState} {q q1 : ℚ} (h : stateLE s q) (hq : q ≤ q1) :
    stateLE s q1 := by
  obtain ⟨b, d, hs, hle⟩ := h
  exact ⟨b, d, hs, le_trans hle hq⟩

lemma updateBest_new_of {target thr : ℚ} {s : SearchState} {c : List Candidate}
    (h1 : stateLE (updateBest target s c) thr) (h2 : ¬ stateLE s thr) :
    updateBest target s c = some (c, diffOf target c) ∧ diffOf target c ≤ thr := by
  rcases stateLE_updateBest_cases h1 with h | h
  · exact absurd h h2
  · refine ⟨?_, h⟩
    cases s with
    | none => rfl
    | some p =>
      obtain ⟨b0, d0⟩ := p
      simp only [updateBest]
      split
      · rfl
      · exfalso
        obtain ⟨b, d, hs, hle⟩ := h1
        rw [show updateBest target (some (b0, d0)) c = some (b0, d0) by
          simp only [updateBest]; rw [if_neg (by assumption)]] at hs
        exact h2 ⟨b, d, hs, hle⟩

lemma innerLoop_cons_pos {target thr : ℚ} {s : SearchState} {c : List Candidate}
    {cs : List (List Candidate)} (h : bdle (updateBest target s c) thr = true) :
    innerLoop target thr (c :: cs) s = (updateBest target s c, [c]) := by
  simp only [innerLoop, h, if_true]

lemma innerLoop_cons_neg {target thr : ℚ} {s : SearchState} {c : List Candidate}
    {cs : List (List Candidate)} (h : ¬ bdle (updateBest target s c) thr = true) :
    innerLoop target thr (c :: cs) s =
      ((innerLoop target thr cs (updateBest target s c)).1,
        c :: (innerLoop target thr cs (updateBest target s c)).2) := by
  simp only [innerLoop, h, if_false, Bool.false_eq_true]

lemma innerLoop_sub {target thr : ℚ} :
    ∀ (cs : List (List Candidate)) (s : SearchState),
      ∀ c ∈ (innerLoop target thr cs s).2, c ∈ cs := by
  intro cs
  induction cs with
  | nil => intro s c hc; simp [innerLoop] at hc
  | cons c0 cs ih =>
    intro s c hc
    by_cases h : bdle (updateBest target s c0) thr = true
    · rw [innerLoop_cons_pos h] at hc
      simp at hc
      simp [hc]
    · rw [innerLoop_cons_neg h] at hc
      rcases List.mem_cons.mp hc with h1 | h1
      · simp [h1]
      · exact List.mem_cons_of_mem _ (ih _ _ h1)

lemma innerLoop_inv {target thr : ℚ} :
    ∀ (cs : List (List Candidate)) (s : SearchState),
      stateInv target s → stateInv target (innerLoop target thr cs s).1 := by
  intro cs
  induction cs with
  | nil => intro s h; simpa [innerLoop] using h
  | cons c0 cs ih =>
    intro s h
    by_cases hb : bdle (updateBest target s c0) thr = true
    · rw [innerLoop_cons_pos hb]
      exact stateInv_updateBest c0 h
    · rw [innerLoop_cons_neg hb]
      exact ih _ (stateInv_updateBest c0 h)

lemma innerLoop_mono {target thr q : ℚ} :
    ∀ (cs : List (List Candidate)) (s : SearchState),
      stateLE s q → stateLE (innerLoop target thr cs s).1 q := by
  intro cs
  induction cs with
  | nil => intro s h; simpa [innerLoop] using h
  | cons c0 cs ih =>
    intro s h
    by_cases hb : bdle (updateBest target s c0) thr = true
    · rw [innerLoop_cons_pos hb]
      exact stateLE_updateBest_mono target c0 h
    · rw [innerLoop_cons_neg hb]
      exact ih _ (stateLE_updateBest_mono target c0 h)

lemma innerLoop_le_eval {target thr : ℚ} :
    ∀ (cs : List (List Candidate)) (s : SearchState),
      ∀ c ∈ (innerLoop target thr cs s).2,
        stateLE (innerLoop target thr cs s).1 (diffOf target c) := by
  intro cs
  induction cs with
  | nil => intro s c hc; simp [innerLoop] at hc
  | cons c0 cs ih =>
    intro s c hc
    by_cases hb : bdle (updateBest target s c0) thr = true
    · rw [innerLoop_cons_pos hb] at hc ⊢
      simp at hc
      rw [hc]
      exact stateLE_updateBest_self target s c0
    · rw [innerLoop_cons_neg hb] at hc ⊢
      rcases List.mem_cons.mp hc with h1 | h1
      · rw [h1]
        exact innerLoop_mono cs _ (stateLE_updateBest_self target s c0)
      · exact ih _ c h1

lemma innerLoop_isSome_of {target thr : ℚ} :
    ∀ (cs : List (List Candidate)) (s : SearchState),
      s.isSome → ((innerLoop target thr cs s).1).isSome := by
  intro cs
  induction cs with
  | nil => intro s h; simpa [innerLoop] using h
  | cons c0 cs ih =>
    intro s h
    by_cases hb : bdle (updateBest target s c0) thr = true
    · rw [innerLoop_cons_pos hb]
      exact updateBest_isSome target s c0
    · rw [innerLoop_cons_neg hb]
      exact ih _ (updateBest_isSome target s c0)

lemma innerLoop_isSome_ne {target thr : ℚ} {cs : List (List Candidate)} {s : SearchState}
    (h : cs ≠ []) : ((innerLoop target thr cs s).1).isSome := by
  cases cs with
  | nil => exact absurd rfl h
  | cons c0 cs =>
    by_cases hb : bdle (updateBest target s c0) thr = true
    · rw [innerLoop_cons_pos hb]
      exact updateBest_isSome target s c0
    · rw [innerLoop_cons_neg hb]
      exact innerLoop_isSome_of cs _ (updateBest_isSome target s c0)

lemma innerLoop_nostop {target thr : ℚ} :
    ∀ (cs : List (List Candidate)) (s : SearchState),
      (∀ c ∈ cs, ¬ diffOf target c ≤ thr) → ¬ stateLE s thr →
        ¬ stateLE (innerLoop target thr cs s).1 thr ∧
          (innerLoop target thr cs s).2 = cs := by
  intro cs
  induction cs with
  | nil => intro s _ hs; simpa [innerLoop] using hs
  | cons c0 cs ih =>
    intro s hall hs
    have hs1 : ¬ stateLE (updateBest target s c0) thr := by
      intro hle
      rcases stateLE_updateBest_cases hle with h | h
      · exact hs h
      · exact hall c0 (List.mem_cons_self c0 cs) h
    have hb : ¬ bdle (updateBest target s c0) thr = true := fun h =>
      hs1 ((bdle_iff_stateLE _ _).mp h)
    rw [innerLoop_cons_neg hb]
    have := ih (updateBest target s c0) (fun c hc => hall c (List.mem_cons_of_mem _ hc)) hs1
    exact ⟨this.1, by rw [this.2]⟩

lemma innerLoop_stop {target thr : ℚ} :
    ∀ (cs : List (List Candidate)) (s : SearchState),
      ¬ stateLE s thr → (∃ c ∈ cs, diffOf target c ≤ thr) →
        ∃ b d, (innerLoop target thr cs s).1 = some (b, d) ∧ d ≤ thr ∧ b ∈ cs := by
  intro cs
  induction cs with
  | nil =>
    intro s _ hex
    simp at hex
  | cons c0 cs ih =>
    intro s hs hex
    by_cases hb : bdle (updateBest target s c0) thr = true
    · rw [innerLoop_cons_pos hb]
      have hle : stateLE (updateBest target s c0) thr := (bdle_iff_stateLE _ _).mp hb
      obtain ⟨heq, hd⟩ := updateBest_new_of hle hs
      exact ⟨c0, diffOf target c0, heq, hd, List.mem_cons_self c0 cs⟩
    · have hs1 : ¬ stateLE (updateBest target s c0) thr := fun h =>
        hb ((bdle_iff_stateLE _ _).mpr h)
      rw [innerLoop_cons_neg hb]
      obtain ⟨c, hc, hcd⟩ := hex
      rcases List.mem_cons.mp hc with h1 | h1
      · exfalso
        apply hs1
        apply stateLE_of_le (stateLE_updateBest_self target s c0)
        rw [← h1]
        exact hcd
      · obtain ⟨b, d, h1', h2', h3'⟩ := ih _ hs1 ⟨c, h1, hcd⟩
        exact ⟨b, d, h1', h2', List.mem_cons_of_mem _ h3'⟩

lemma stateLE_some_iff {b : List Candidate} {d q : ℚ} :
    stateLE (some (b, d)) q ↔ d ≤ q := by
  constructor
  · rintro ⟨b1, d1, heq, h⟩
    simp only [Option.some.injEq, Prod.mk.injEq] at heq
    rw [heq.2]
    exact h
  · intro h
    exact ⟨b, d, rfl, h⟩

lemma outerLoop_cons_pos {target thr : ℚ} {cands : List Candidate} {r : ℕ} {rs : List ℕ}
    {s : SearchState}
    (h : bdle (innerLoop target thr (List.sublistsLen r cands) s).1 thr = true) :
    outerLoop target thr cands (r :: rs) s =
      innerLoop target thr (List.sublistsLen r cands) s := by
  simp only [outerLoop, h, if_true]

lemma outerLoop_cons_neg {target thr : ℚ} {cands : List Candidate} {r : ℕ} {rs : List ℕ}
    {s : SearchState}
    (h : ¬ bdle (innerLoop target thr (List.sublistsLen r cands) s).1 thr = true) :
    outerLoop target thr cands (r :: rs) s =
      ((outerLoop target thr cands rs
          (innerLoop target thr (List.sublistsLen r cands) s).1).1,
        (innerLoop target thr (List.sublistsLen r cands) s).2 ++
          (outerLoop target thr cands rs
            (innerLoop target thr (List.sublistsLen r cands) s).1).2) := by
  simp only [outerLoop, h, if_false, Bool.false_eq_true]

lemma outerLoop_inv {target thr : ℚ} {cands : List Candidate} :
    ∀ (rs : List ℕ) (s : SearchState),
      stateInv target s → stateInv target (outerLoop target thr cands rs s).1 := by
  intro rs
  induction rs with
  | nil => intro s h; simpa [outerLoop] using h
  | cons r rs ih =>
    intro s h
    by_cases hb : bdle (innerLoop target thr (List.sublistsLen r cands) s).1 thr = true
    · rw [outerLoop_cons_pos hb]
      exact innerLoop_inv _ _ h
    · rw [outerLoop_cons_neg hb]
      exact ih _ (innerLoop_inv _ _ h)

lemma outerLoop_mono {target thr q : ℚ} {cands : List Candidate} :
    ∀ (rs : List ℕ) (s : SearchState),
      stateLE s q → stateLE (outerLoop target thr cands rs s).1 q := by
  intro rs
  induction rs with
  | nil => intro s h; simpa [outerLoop] using h
  | cons r rs ih =>
    intro s h
    by_cases hb : bdle (innerLoop target thr (List.sublistsLen r cands) s).1 thr = true
    · rw [outerLoop_cons_pos hb]
      exact innerLoop_mono _ _ h
    · rw [outerLoop_cons_neg hb]
      exact ih _ (innerLoop_mono _ _ h)

lemma outerLoop_le_eval {target thr : ℚ} {cands : List Candidate} :
    ∀ (rs : List ℕ) (s : SearchState),
      ∀ c ∈ (outerLoop target thr cands rs s).2,
        stateLE (outerLoop target thr cands rs s).1 (diffOf target c) := by
  intro rs
  induction rs with
  | nil => intro s c hc; simp [outerLoop] at hc
  | cons r rs ih =>
    intro s c hc
    by_cases hb : bdle (innerLoop target thr (List.sublistsLen r cands) s).1 thr = true
    · rw [outerLoop_cons_pos hb] at hc ⊢
      exact innerLoop_le_eval _ _ c hc
    · rw [outerLoop_cons_neg hb] at hc ⊢
      rcases List.mem_append.mp hc with h1 | h1
      · exact outerLoop_mono rs _ (innerLoop_le_eval _ _ c h1)
      · exact ih _ c h1

lemma outerLoop_sub {target thr : ℚ} {cands : List Candidate} :
    ∀ (rs : List ℕ) (s : SearchState),
      ∀ c ∈ (outerLoop target thr cands rs s).2,
        ∃ r ∈ rs, c ∈ List.sublistsLen r cands := by
  intro rs
  induction rs with
  | nil => intro s c hc; simp [outerLoop] at hc
  | cons r rs ih =>
    intro s c hc
    by_cases hb : bdle (innerLoop target thr (List.sublistsLen r cands) s).1 thr = true
    · rw [outerLoop_cons_pos hb] at hc
      exact ⟨r, List.mem_cons_self r rs, innerLoop_sub _ _ c hc⟩
    · rw [outerLoop_cons_neg hb] at hc
      rcases List.mem_append.mp hc with h1 | h1
      · exact ⟨r, List.mem_cons_self r rs, innerLoop_sub _ _ c h1⟩
      · obtain ⟨r1, hr1, hmem⟩ := ih _ c h1
        exact ⟨r1, List.mem_cons_of_mem _ hr1, hmem⟩

lemma outerLoop_isSome_of {target thr : ℚ} {cands : List Candidate} :
    ∀ (rs : List ℕ) (s : SearchState),
      s.isSome → ((outerLoop target thr cands rs s).1).isSome := by
  intro rs
  induction rs with
  | nil => intro s h; simpa [outerLoop] using h
  | cons r rs ih =>
    intro s h
    by_cases hb : bdle (innerLoop target thr (List.sublistsLen r cands) s).1 thr = true
    · rw [outerLoop_cons_pos hb]
      exact innerLoop_isSome_of _ _ h
    · rw [outerLoop_cons_neg hb]
      exact ih _ (innerLoop_isSome_of _ _ h)

lemma outerLoop_hit {target thr : ℚ} {cands : List Candidate} :
    ∀ (rs : List ℕ) (s : SearchState),
      ¬ stateLE s thr → List.Pairwise (· ≤ ·) rs →
      (∃ r ∈ rs, ∃ c ∈ List.sublistsLen r cands, diffOf target c ≤ thr) →
      ∃ b d, (outerLoop target thr cands rs s).1 = some (b, d) ∧ d ≤ thr ∧
        (∃ r ∈ rs, b.length = r) ∧
        ∀ c ∈ (outerLoop target thr cands rs s).2, c.length ≤ b.length := by
  intro rs
  induction rs with
  | nil =>
    intro s _ _ hex
    simp at hex
  | cons r rs ih =>
    intro s hs hpw hex
    by_cases hhit : ∃ c ∈ List.sublistsLen r cands, diffOf target c ≤ thr
    · obtain ⟨b, d, hp1, hd, hbmem⟩ := innerLoop_stop _ s hs hhit
      have hb : bdle (innerLoop target thr (List.sublistsLen r cands) s).1 thr = true :=
        (bdle_iff_stateLE _ _).mpr (by rw [hp1]; exact stateLE_some_iff.mpr hd)
      rw [outerLoop_cons_pos hb]
      have hlen : b.length = r := (List.mem_sublistsLen.mp hbmem).2
      refine ⟨b, d, hp1, hd, ⟨r, List.mem_cons_self r rs, hlen⟩, ?_⟩
      intro c hc
      have := (List.mem_sublistsLen.mp (innerLoop_sub _ _ c hc)).2
      rw [this, hlen]
    · have hnostop := innerLoop_nostop (List.sublistsLen r cands) s
        (fun c hc hle => hhit ⟨c, hc, hle⟩) hs
      have hb : ¬ bdle (innerLoop target thr (List.sublistsLen r cands) s).1 thr = true :=
        fun h => hnostop.1 ((bdle_iff_stateLE _ _).mp h)
      rw [outerLoop_cons_neg hb]
      have hex2 : ∃ r1 ∈ rs, ∃ c ∈ List.sublistsLen r1 cands, diffOf target c ≤ thr := by
        obtain ⟨r1, hr1, hc⟩ := hex
        rcases List.mem_cons.mp hr1 with h1 | h1
        · exact absurd (h1 ▸ hc) hhit
        · exact ⟨r1, h1, hc⟩
      obtain ⟨b, d, h1, h2, ⟨r1, hr1, hlen⟩, h4⟩ :=
        ih (innerLoop target thr (List.sublistsLen r cands) s).1 hnostop.1
          (List.pairwise_cons.mp hpw).2 hex2
      refine ⟨b, d, h1, h2, ⟨r1, List.mem_cons_of_mem _ hr1, hlen⟩, ?_⟩
      intro c hc
      rcases List.mem_append.mp hc with hm | hm
      · rw [hnostop.2] at hm
        have hcr : c.length = r := (List.mem_sublistsLen.mp hm).2
        rw [hcr, hlen]
        exact (List.pairwise_cons.mp hpw).1 r1 hr1
      · exact h4 c hm

lemma sortCandsInsert_length (x : Candidate) :
    ∀ l : List Candidate, (sortCandsInsert x l).length = l.length + 1 := by
  intro l
  induction l with
  | nil => rfl
  | cons y ys ih =>
    simp only [sortCandsInsert]
    split
    · simp
    · simp [ih]

lemma sortCands_length : ∀ l : List Candidate, (sortCands l).length = l.length := by
  intro l
  induction l with
  | nil => rfl
  | cons x xs ih =>
    simp only [sortCands, List.foldr_cons]
    rw [show List.foldr sortCandsInsert [] xs = sortCands xs from rfl]
    rw [sortCandsInsert_length, ih, List.length_cons]

lemma searchState_eq (cands : List Candidate) (target : ℚ) :
    searchState cands target =
      (outerLoop target (target * (3 / 100000)) (sortCands cands)
        (List.range' 1 (min (sortCands cands).length 15)) none).1 := rfl

lemma evaluatedCombos_eq (cands : List Candidate) (target : ℚ) :
    evaluatedCombos cands target =
      (outerLoop target (target * (3 / 100000)) (sortCands cands)
        (List.range' 1 (min (sortCands cands).length 15)) none).2 := rfl

lemma not_stateLE_none (q : ℚ) : ¬ stateLE none q := by
  rintro ⟨b, d, h, _⟩
  cases h

lemma outerLoop_isSome_head {target thr : ℚ} {cands : List Candidate} {r : ℕ}
    {rs : List ℕ} {s : SearchState} (hne : List.sublistsLen r cands ≠ []) :
    ((outerLoop target thr cands (r :: rs) s).1).isSome := by
  by_cases hb : bdle (innerLoop target thr (List.sublistsLen r cands) s).1 thr = true
  · rw [outerLoop_cons_pos hb]
    exact innerLoop_isSome_ne hne
  · rw [outerLoop_cons_neg hb]
    exact outerLoop_isSome_of rs _ (innerLoop_isSome_ne hne)

lemma sublistsLen_one_ne_nil {l : List Candidate} (h : l ≠ []) :
    List.sublistsLen 1 l ≠ [] := by
  intro hnil
  have := List.length_sublistsLen 1 l
  rw [hnil, Nat.choose_one_right] at this
  exact h (List.eq_nil_of_length_eq_zero this.symm)

lemma range'_head (n : ℕ) (h : 1 ≤ n) :
    List.range' 1 n = 1 :: List.range' 2 (n - 1) := by
  conv_lhs => rw [show n = (n - 1) + 1 from (Nat.succ_pred_eq_of_pos h).symm]
  exact List.range'_succ 1 (n - 1) 1

lemma searchState_spec (cands : List Candidate) (target : ℚ) (h : cands ≠ []) :
    ∃ b d, searchState cands target = some (b, d) ∧ d = diffOf target b ∧
      ∀ c ∈ evaluatedCombos cands target, d ≤ diffOf target c := by
  have hlen : 1 ≤ (sortCands cands).length := by
    rw [sortCands_length]
    exact List.length_pos.mpr h
  have hmaxr : 1 ≤ min (sortCands cands).length 15 := le_min hlen (by norm_num)
  have hsome : (searchState cands target).isSome := by
    rw [searchState_eq, range'_head _ hmaxr]
    exact outerLoop_isSome_head (sublistsLen_one_ne_nil (by
      intro hnil
      rw [hnil] at hlen
      simp at hlen))
  obtain ⟨p, hp⟩ := Option.isSome_iff_exists.mp hsome
  obtain ⟨b, d⟩ := p
  have hinv : stateInv target (searchState cands target) := by
    rw [searchState_eq]
    exact outerLoop_inv _ none (stateInv_none target)
  refine ⟨b, d, hp, hinv b d hp, ?_⟩
  intro c hc
  have hle : stateLE (searchState cands target) (diffOf target c) := by
    rw [searchState_eq]
    rw [evaluatedCombos_eq] at hc
    exact outerLoop_le_eval _ none c hc
  rw [hp] at hle
  exact stateLE_some_iff.mp hle

/-- **C1** (Profile Resolver acceptance boundary): for every non-empty
candidate set, the combination search ends in a best combination `b` with
difference `d = |area(b) - target|` minimal among all evaluated combinations,
and `findProfileForCircle` returns `b` exactly when `d ≤ target * 0.03`
(a difference equal to 3% of the target is accepted) and `None` otherwise. -/
theorem profileResolver_toleranceBoundary (cands : List Candidate) (target : ℚ)
    (h : cands ≠ []) :
    ∃ b d, searchState cands target = some (b, d) ∧ d = diffOf target b ∧
      (∀ c ∈ evaluatedCombos cands target, d ≤ diffOf target c) ∧
      resolveFromCandidates cands target =
        if d ≤ target * (3 / 100) then some (b.map (·.prof)) else none := by
  obtain ⟨b, d, hbd, hinv, hev⟩ := searchState_spec cands target h
  refine ⟨b, d, hbd, hinv, hev, ?_⟩
  unfold resolveFromCandidates
  rw [if_neg (by simp only [List.isEmpty_iff]; exact h)]
  rw [hbd]

/-- C1 at a concrete input: a single candidate matching the circle area
exactly is accepted. -/
theorem profileResolver_toleranceBoundary_witness :
    (([⟨⟨1, 4, ⟨0, 0⟩, ⟨0, 0⟩, ⟨0, 0⟩⟩, 4⟩] : List Candidate) ≠ []) ∧
    (∃ b d, searchState [⟨⟨1, 4, ⟨0, 0⟩, ⟨0, 0⟩, ⟨0, 0⟩⟩, 4⟩] 4 = some (b, d) ∧
      d = diffOf 4 b ∧
      (∀ c ∈ evaluatedCombos [⟨⟨1, 4, ⟨0, 0⟩, ⟨0, 0⟩, ⟨0, 0⟩⟩, 4⟩] 4,
        d ≤ diffOf 4 c) ∧
      resolveFromCandidates [⟨⟨1, 4, ⟨0, 0⟩, ⟨0, 0⟩, ⟨0, 0⟩⟩, 4⟩] 4 =
        if d ≤ 4 * (3 / 100) then some (b.map (·.prof)) else none) :=
  ⟨by decide, profileResolver_toleranceBoundary _ 4 (by decide)⟩

/-- **C5** (Profile Resolver early exit): if some combination of some admitted
size has area difference at most `target * 0.00003`, the search stops with a
best combination meeting that threshold, the resolver returns it, and no
combination of a strictly larger size is ever evaluated. -/
theorem profileResolver_earlyExit (cands : List Candidate) (target : ℚ)
    (htarget : 0 ≤ target)
    (hex : ∃ r ∈ List.range' 1 (min (sortCands cands).length 15),
      ∃ c ∈ List.sublistsLen r (sortCands cands),
        diffOf target c ≤ target * (3 / 100000)) :
    ∃ b d, searchState cands target = some (b, d) ∧ d = diffOf target b ∧
      d ≤ target * (3 / 100000) ∧
      resolveFromCandidates cands target = some (b.map (·.prof)) ∧
      ∀ c ∈ evaluatedCombos cands target, c.length ≤ b.length := by
  have hpw : List.Pairwise (· ≤ ·) (List.range' 1 (min (sortCands cands).length 15)) :=
    (List.pairwise_lt_range' 1 _ 1).imp le_of_lt
  obtain ⟨b, d, h1, h2, _, h4⟩ :=
    @outerLoop_hit target (target * (3 / 100000)) (sortCands cands) _ none
      (not_stateLE_none _) hpw hex
  have hstate : searchState cands target = some (b, d) := by
    rw [searchState_eq]
    exact h1
  have hinv : stateInv target (searchState cands target) := by
    rw [searchState_eq]
    exact outerLoop_inv _ none (stateInv_none target)
  have hne : cands ≠ [] := by
    intro hnil
    obtain ⟨r, hr, -⟩ := hex
    rw [hnil] at hr
    simp [sortCands] at hr
  have hd3 : d ≤ target * (3 / 100) :=
    le_trans h2 (mul_le_mul_of_nonneg_left (by norm_num) htarget)
  refine ⟨b, d, hstate, hinv b d hstate, h2, ?_, ?_⟩
  · unfold resolveFromCandidates
    rw [if_neg (by simp only [List.isEmpty_iff]; exact hne)]
    rw [hstate]
    show (if d ≤ target * (3 / 100) then some (b.map (·.prof)) else none) =
      some (b.map (·.prof))
    exact if_pos hd3
  · intro c hc
    rw [evaluatedCombos_eq] at hc
    exact h4 c hc

/-- C5 at a concrete input: one exactly matching candidate triggers the
near-perfect early exit at size 1. -/
theorem profileResolver_earlyExit_witness :
    (0 : ℚ) ≤ 4 ∧
    (∃ r ∈ List.range' 1
        (min (sortCands [⟨⟨1, 4, ⟨0, 0⟩, ⟨0, 0⟩, ⟨0, 0⟩⟩, 4⟩]).length 15),
      ∃ c ∈ List.sublistsLen r (sortCands [⟨⟨1, 4, ⟨0, 0⟩, ⟨0, 0⟩, ⟨0, 0⟩⟩, 4⟩]),
        diffOf 4 c ≤ 4 * (3 / 100000)) ∧
    (∃ b d, searchState [⟨⟨1, 4, ⟨0, 0⟩, ⟨0, 0⟩, ⟨0, 0⟩⟩, 4⟩] 4 = some (b, d) ∧
      d = diffOf 4 b ∧ d ≤ 4 * (3 / 100000) ∧
      resolveFromCandidates [⟨⟨1, 4, ⟨0, 0⟩, ⟨0, 0⟩, ⟨0, 0⟩⟩, 4⟩] 4 =
        some (b.map (·.prof)) ∧
      ∀ c ∈ evaluatedCombos [⟨⟨1, 4, ⟨0, 0⟩, ⟨0, 0⟩, ⟨0, 0⟩⟩, 4⟩] 4,
        c.length ≤ b.length) :=
  have hex : ∃ r ∈ List.range' 1
      (min (sortCands [⟨⟨1, 4, ⟨0, 0⟩, ⟨0, 0⟩, ⟨0, 0⟩⟩, 4⟩]).length 15),
      ∃ c ∈ List.sublistsLen r (sortCands [⟨⟨1, 4, ⟨0, 0⟩, ⟨0, 0⟩, ⟨0, 0⟩⟩, 4⟩]),
        diffOf 4 c ≤ 4 * (3 / 100000) :=
    ⟨1, by decide,
      [⟨⟨1, 4, ⟨0, 0⟩, ⟨0, 0⟩, ⟨0, 0⟩⟩, 4⟩],
      List.mem_sublistsLen.mpr ⟨List.Sublist.refl _, rfl⟩,
      by norm_num [diffOf, comboArea, ratAbs]⟩
  ⟨by norm_num, hex, profileResolver_earlyExit _ 4 (by norm_num) hex⟩

/-- **C6 (amended)**: the cap of 15 bounds the combination *size*, and every
evaluated combination is drawn from the full sorted candidate list (not from
the 15 largest only). -/
theorem profileResolver_candidateCap (cands : List Candidate) (target : ℚ) :
    ∀ c ∈ evaluatedCombos cands target,
      c.length ≤ 15 ∧ ∀ x ∈ c, x ∈ sortCands cands := by
  intro c hc
  rw [evaluatedCombos_eq] at hc
  obtain ⟨r, hr, hmem⟩ := outerLoop_sub _ none c hc
  obtain ⟨hsub, hlen⟩ := List.mem_sublistsLen.mp hmem
  obtain ⟨i, hi, hri⟩ := List.mem_range'.mp hr
  have h15 : min (sortCands cands).length 15 ≤ 15 := Nat.min_le_right _ _
  constructor
  · rw [hlen, hri]
    omega
  · intro x hx
    exact hsub.subset hx

/-- Candidate fixture for the cap claims: 16 coarse-filter survivors with
pairwise distinct areas `16, 15, …, 1`. -/
def capCand (i : ℕ) (a : ℚ) : Candidate := ⟨⟨i, a, ⟨0, 0⟩, ⟨0, 0⟩, ⟨0, 0⟩⟩, a⟩

def capCands : List Candidate :=
  [capCand 0 16, capCand 1 15, capCand 2 14, capCand 3 13,
   capCand 4 12, capCand 5 11, capCand 6 10, capCand 7 9,
   capCand 8 8, capCand 9 7, capCand 10 6, capCand 11 5,
   capCand 12 4, capCand 13 3, capCand 14 2, capCand 15 1]

lemma capCands_sorted : sortCands capCands = capCands := by decide

lemma capCands_sub1 :
    List.sublistsLen 1 capCands =
      [[capCand 15 1], [capCand 14 2], [capCand 13 3], [capCand 12 4],
       [capCand 11 5], [capCand 10 6], [capCand 9 7], [capCand 8 8],
       [capCand 7 9], [capCand 6 10], [capCand 5 11], [capCand 4 12],
       [capCand 3 13], [capCand 2 14], [capCand 1 15], [capCand 0 16]] := by decide

lemma capCands_sizes :
    List.range' 1 (min capCands.length 15) = 1 :: List.range' 2 14 := by decide

lemma capDiff : diffOf 1 [capCand 15 1] = 0 := by
  norm_num [diffOf, comboArea, ratAbs, capCand]

lemma capUpdate : updateBest 1 none [capCand 15 1] = some ([capCand 15 1], 0) := by
  rw [show updateBest 1 none [capCand 15 1] =
    some ([capCand 15 1], diffOf 1 [capCand 15 1]) from rfl, capDiff]

lemma capBdle : bdle (updateBest 1 none [capCand 15 1]) (1 * (3 / 100000)) = true := by
  rw [capUpdate]
  simp only [bdle, decide_eq_true_eq]
  norm_num

lemma capInner :
    innerLoop 1 (1 * (3 / 100000)) (List.sublistsLen 1 capCands) none =
      (some ([capCand 15 1], 0), [[capCand 15 1]]) := by
  rw [capCands_sub1, innerLoop_cons_pos capBdle, capUpdate]

lemma capOuterBdle :
    bdle (innerLoop 1 (1 * (3 / 100000)) (List.sublistsLen 1 capCands) none).1
      (1 * (3 / 100000)) = true := by
  rw [capInner]
  simp only [bdle, decide_eq_true_eq]
  norm_num

lemma capSearch : searchState capCands 1 = some ([capCand 15 1], 0) := by
  rw [searchState_eq, capCands_sorted, capCands_sizes,
    outerLoop_cons_pos capOuterBdle, capInner]

lemma capEvaluated : evaluatedCombos capCands 1 = [[capCand 15 1]] := by
  rw [evaluatedCombos_eq, capCands_sorted, capCands_sizes,
    outerLoop_cons_pos capOuterBdle, capInner]

/-- C6 as stated is false: with 16 surviving candidates of areas `16 … 1` and
target area `1`, the search returns the candidate with the strictly smallest
area — a candidate *beyond* the 15 largest — so the combinations are not drawn
from the 15 largest candidates only. -/
theorem profileResolver_candidateCap_counterexample :
    resolveFromCandidates capCands 1 = some [(capCand 15 1).prof] ∧
    ∀ c ∈ capCands, c ≠ capCand 15 1 → (capCand 15 1).area < c.area := by
  constructor
  · unfold resolveFromCandidates
    rw [if_neg (by decide), capSearch]
    show (if (0 : ℚ) ≤ 1 * (3 / 100) then
      some ([capCand 15 1].map (·.prof)) else none) = some [(capCand 15 1).prof]
    rw [if_pos (by norm_num)]
    rfl
  · decide

/-- C6 amended at a concrete input: the one evaluated combination of the
16-candidate fixture has size ≤ 15 and is drawn from the sorted candidates. -/
theorem profileResolver_candidateCap_witness :
    [capCand 15 1] ∈ evaluatedCombos capCands 1 ∧
    ([capCand 15 1].length ≤ 15 ∧ ∀ x ∈ [capCand 15 1], x ∈ sortCands capCands) :=
  have hmem : [capCand 15 1] ∈ evaluatedCombos capCands 1 := by
    rw [capEvaluated]; exact List.mem_singleton.mpr rfl
  ⟨hmem, profileResolver_candidateCap capCands 1 [capCand 15 1] hmem⟩

/-- **C10** (sketch guard): when the target circle's parent sketch is not the
sketch passed in, `findProfileForCircle` returns `None` immediately, reading
no profile data at all (the result is independent of the profile list). -/
theorem findProfile_sketchGuard (sketchId : ℕ) (profiles : List Profile) (c : Circle)
    (h : c.parentSketch ≠ sketchId) :
    findProfileForCircle sketchId profiles c = none ∧
    ∀ other : List Profile,
      findProfileForCircle sketchId profiles c = findProfileForCircle sketchId other c := by
  unfold findProfileForCircle
  rw [if_pos h]
  exact ⟨rfl, fun other => by rw [if_pos h]⟩

/-- C10 at a concrete input. -/
theorem findProfile_sketchGuard_witness :
    (Circle.mk 1 ⟨0, 0⟩ 1 3).parentSketch ≠ 0 ∧
    (findProfileForCircle 0 [⟨1, 4, ⟨0, 0⟩, ⟨0, 0⟩, ⟨0, 0⟩⟩] ⟨1, ⟨0, 0⟩, 1, 3⟩ = none ∧
      ∀ other : List Profile,
        findProfileForCircle 0 [⟨1, 4, ⟨0, 0⟩, ⟨0, 0⟩, ⟨0, 0⟩⟩] ⟨1, ⟨0, 0⟩, 1, 3⟩ =
          findProfileForCircle 0 other ⟨1, ⟨0, 0⟩, 1, 3⟩) :=
  ⟨by decide, findProfile_sketchGuard 0 _ _ (by decide)⟩

/-! ### Lemmas and claims for the Direction Inferencer -/

lemma entersBody_iff (probe : Probe) (sign : ℚ) :
    ∀ ds : List ℚ,
      (entersBody probe sign ds = true ↔ ∃ d ∈ ds, probe (sign * d) ≠ Containment.outside) := by
  intro ds
  induction ds with
  | nil => simp [entersBody]
  | cons d ds ih =>
    simp only [entersBody]
    cases h : probe (sign * d) with
    | inside =>
      simp only [true_iff]
      exact ⟨d, List.mem_cons_self d ds, by rw [h]; exact fun hc => Containment.noConfusion hc⟩
    | onSurface =>
      simp only [true_iff]
      exact ⟨d, List.mem_cons_self d ds, by rw [h]; exact fun hc => Containment.noConfusion hc⟩
    | outside =>
      rw [ih]
      constructor
      · rintro ⟨d1, hd1, hne⟩
        exact ⟨d1, List.mem_cons_of_mem _ hd1, hne⟩
      · rintro ⟨d1, hd1, hne⟩
        rcases List.mem_cons.mp hd1 with rfl | h1
        · exact absurd h hne
        · exact ⟨d1, h1, hne⟩

lemma dirEnters_iff (probe : Probe) (sign : ℚ) :
    dirEnters probe sign ↔ entersBody probe sign testDistances = true :=
  (entersBody_iff probe sign testDistances).symm

/-- **C2** (Direction Inferencer decision table): with "the direction enters
the body" meaning some sample among the offsets `0.01, 0.05, 0.1, 0.2` cm is
not strictly outside, `findExtrudeDirectionFromSketch` returns the unique
entering direction, `None` when neither direction enters, and on a tie probes
at `0.001` cm each side, cutting away from the strictly-outside side and
defaulting to positive. -/
theorem findExtrudeDirection_decisionTable (probe : Probe) :
    (dirEnters probe 1 ∧ ¬ dirEnters probe (-1) →
      findExtrudeDirectionFromSketch probe = some Dir.positive) ∧
    (dirEnters probe (-1) ∧ ¬ dirEnters probe 1 →
      findExtrudeDirectionFromSketch probe = some Dir.negative) ∧
    (¬ dirEnters probe 1 ∧ ¬ dirEnters probe (-1) →
      findExtrudeDirectionFromSketch probe = none) ∧
    (dirEnters probe 1 ∧ dirEnters probe (-1) →
      (probe (1 / 1000) = Containment.outside ∧ probe (-(1 / 1000)) ≠ Containment.outside →
        findExtrudeDirectionFromSketch probe = some Dir.negative) ∧
      (probe (-(1 / 1000)) = Containment.outside ∧ probe (1 / 1000) ≠ Containment.outside →
        findExtrudeDirectionFromSketch probe = some Dir.positive) ∧
      ((probe (1 / 1000) = Containment.outside ↔ probe (-(1 / 1000)) = Containment.outside) →
        findExtrudeDirectionFromSketch probe = some Dir.positive)) := by
  refine ⟨?_, ?_, ?_, ?_⟩
  · rintro ⟨h1, h2⟩
    have hp : entersBody probe 1 testDistances = true := (dirEnters_iff probe 1).mp h1
    have hn : entersBody probe (-1) testDistances = false :=
      Bool.eq_false_iff.mpr (fun hc => h2 ((dirEnters_iff probe (-1)).mpr hc))
    simp only [findExtrudeDirectionFromSketch, hp, hn]
    rfl
  · rintro ⟨h1, h2⟩
    have hn : entersBody probe (-1) testDistances = true := (dirEnters_iff probe (-1)).mp h1
    have hp : entersBody probe 1 testDistances = false :=
      Bool.eq_false_iff.mpr (fun hc => h2 ((dirEnters_iff probe 1).mpr hc))
    simp only [findExtrudeDirectionFromSketch, hp, hn]
    rfl
  · rintro ⟨h1, h2⟩
    have hp : entersBody probe 1 testDistances = false :=
      Bool.eq_false_iff.mpr (fun hc => h1 ((dirEnters_iff probe 1).mpr hc))
    have hn : entersBody probe (-1) testDistances = false :=
      Bool.eq_false_iff.mpr (fun hc => h2 ((dirEnters_iff probe (-1)).mpr hc))
    simp only [findExtrudeDirectionFromSketch, hp, hn]
    rfl
  · rintro ⟨h1, h2⟩
    have hp : entersBody probe 1 testDistances = true := (dirEnters_iff probe 1).mp h1
    have hn : entersBody probe (-1) testDistances = true := (dirEnters_iff probe (-1)).mp h2
    have hboth : findExtrudeDirectionFromSketch probe =
        (if probe (1 / 1000) = Containment.outside ∧
            ¬ probe (-(1 / 1000)) = Containment.outside then some Dir.negative
         else if probe (-(1 / 1000)) = Containment.outside ∧
            ¬ probe (1 / 1000) = Containment.outside then some Dir.positive
         else some Dir.positive) := by
      simp only [findExtrudeDirectionFromSketch, hp, hn, Bool.not_true, Bool.and_false,
        Bool.false_eq_true, if_false, Bool.and_self, if_true]
    rw [hboth]
    refine ⟨?_, ?_, ?_⟩
    · rintro ⟨hpo, hno⟩
      rw [if_pos ⟨hpo, hno⟩]
    · rintro ⟨hno, hpo⟩
      rw [if_neg (fun hc => hpo hc.1), if_pos ⟨hno, hpo⟩]
    · intro hiff
      by_cases hpo : probe (1 / 1000) = Containment.outside
      · have hno := hiff.mp hpo
        rw [if_neg (fun hc => hc.2 hno), if_neg (fun hc => hc.2 hpo)]
      · have hno : ¬ probe (-(1 / 1000)) = Containment.outside := fun hc => hpo (hiff.mpr hc)
        rw [if_neg (fun hc => hpo hc.1), if_neg (fun hc => hno hc.1)]

/-- Concrete containment oracle: anchor on the top face of a solid occupying
`t ≤ 0`, so only the positive direction enters the body. -/
def probeOuterFace : Probe := fun t =>
  if 0 < t then Containment.inside else Containment.outside

/-- C2 at a concrete input: only the positive direction enters, and the
inferencer returns it. -/
theorem findExtrudeDirection_decisionTable_witness :
    (dirEnters probeOuterFace 1 ∧ ¬ dirEnters probeOuterFace (-1)) ∧
    findExtrudeDirectionFromSketch probeOuterFace = some Dir.positive := by
  have h1 : dirEnters probeOuterFace 1 := by
    refine ⟨1 / 100, by norm_num [testDistances], ?_⟩
    show (if (0 : ℚ) < 1 * (1 / 100) then Containment.inside else Containment.outside) ≠ _
    rw [if_pos (by norm_num)]
    exact fun hc => Containment.noConfusion hc
  have h2 : ¬ dirEnters probeOuterFace (-1) := by
    rintro ⟨d, hd, hne⟩
    have hdpos : 0 < d := by
      simp only [testDistances, List.mem_cons, List.not_mem_nil, or_false] at hd
      rcases hd with rfl | rfl | rfl | rfl <;> norm_num
    apply hne
    show (if (0 : ℚ) < -1 * d then Containment.inside else Containment.outside) = _
    rw [if_neg (by linarith)]
  exact ⟨⟨h1, h2⟩, (findExtrudeDirection_decisionTable probeOuterFace).1 ⟨h1, h2⟩⟩

/-! ### Lemmas and claims for the Through-Bore Distance Calculator -/

lemma throughLoop_inside {probe : Probe} {fuel i : ℕ} {b : Bool}
    (h : probe ((i : ℚ) * (1 / 10)) = Containment.inside) :
    throughLoop probe (fuel + 1) i b = throughLoop probe fuel (i + 1) true := by
  simp only [throughLoop]
  rw [h]
  simp

lemma throughLoop_onSurface {probe : Probe} {fuel i : ℕ} {b : Bool}
    (h : probe ((i : ℚ) * (1 / 10)) = Containment.onSurface) :
    throughLoop probe (fuel + 1) i b = throughLoop probe fuel (i + 1) b := by
  simp only [throughLoop]
  rw [h]
  simp

lemma throughLoop_outside_false {probe : Probe} {fuel i : ℕ}
    (h : probe ((i : ℚ) * (1 / 10)) = Containment.outside) :
    throughLoop probe (fuel + 1) i false = throughLoop probe fuel (i + 1) false := by
  simp only [throughLoop]
  rw [h]
  simp

lemma throughLoop_outside_true {probe : Probe} {fuel i : ℕ}
    (h : probe ((i : ℚ) * (1 / 10)) = Containment.outside) :
    throughLoop probe (fuel + 1) i true = some ((i : ℚ) * (1 / 10)) := by
  simp only [throughLoop]
  rw [h]
  simp

lemma throughLoop_sound {probe : Probe} :
    ∀ (fuel i : ℕ) (b : Bool) (d : ℚ), throughLoop probe fuel i b = some d →
      ∃ j : ℕ, d = (j : ℚ) * (1 / 10) ∧ i ≤ j ∧ j < i + fuel ∧
        probe d = Containment.outside := by
  intro fuel
  induction fuel with
  | zero =>
    intro i b d h
    cases h
  | succ fuel ih =>
    intro i b d h
    cases hc : probe ((i : ℚ) * (1 / 10)) with
    | inside =>
      rw [throughLoop_inside hc] at h
      obtain ⟨j, h1, h2, h3, h4⟩ := ih (i + 1) true d h
      exact ⟨j, h1, by omega, by omega, h4⟩
    | onSurface =>
      rw [throughLoop_onSurface hc] at h
      obtain ⟨j, h1, h2, h3, h4⟩ := ih (i + 1) b d h
      exact ⟨j, h1, by omega, by omega, h4⟩
    | outside =>
      cases b with
      | true =>
        rw [throughLoop_outside_true hc] at h
        obtain rfl : ((i : ℚ) * (1 / 10)) = d := Option.some.inj h
        exact ⟨i, rfl, le_refl i, by omega, hc⟩
      | false =>
        rw [throughLoop_outside_false hc] at h
        obtain ⟨j, h1, h2, h3, h4⟩ := ih (i + 1) false d h
        exact ⟨j, h1, by omega, by omega, h4⟩

lemma throughLoop_complete {probe : Probe} :
    ∀ (fuel i : ℕ) (b : Bool) (m : ℕ), i ≤ m → m < i + fuel →
      probe ((m : ℚ) * (1 / 10)) = Containment.outside →
      (b = true ∨ ∃ k : ℕ, i ≤ k ∧ k ≤ m ∧ probe ((k : ℚ) * (1 / 10)) = Containment.inside) →
      ∃ d, throughLoop probe fuel i b = some d ∧ d ≤ (m : ℚ) * (1 / 10) := by
  intro fuel
  induction fuel with
  | zero =>
    intro i b m h1 h2 _ _
    omega
  | succ fuel ih =>
    intro i b m h1 h2 hout hcond
    cases hc : probe ((i : ℚ) * (1 / 10)) with
    | inside =>
      have him : i ≠ m := by
        intro hrfl
        rw [hrfl, hout] at hc
        cases hc
      rw [throughLoop_inside hc]
      obtain ⟨d, hd1, hd2⟩ := ih (i + 1) true m (by omega) (by omega) hout (Or.inl rfl)
      exact ⟨d, hd1, hd2⟩
    | onSurface =>
      have him : i ≠ m := by
        intro hrfl
        rw [hrfl, hout] at hc
        cases hc
      rw [throughLoop_onSurface hc]
      have hcond2 : b = true ∨ ∃ k : ℕ, i + 1 ≤ k ∧ k ≤ m ∧
          probe ((k : ℚ) * (1 / 10)) = Containment.inside := by
        rcases hcond with hb | ⟨k, hk1, hk2, hk3⟩
        · exact Or.inl hb
        · have : k ≠ i := by
            intro hrfl
            rw [hrfl, hc] at hk3
            cases hk3
          exact Or.inr ⟨k, by omega, hk2, hk3⟩
      obtain ⟨d, hd1, hd2⟩ := ih (i + 1) b m (by omega) (by omega) hout hcond2
      exact ⟨d, hd1, hd2⟩
    | outside =>
      cases b with
      | true =>
        rw [throughLoop_outside_true hc]
        refine ⟨(i : ℚ) * (1 / 10), rfl, ?_⟩
        have : (i : ℚ) ≤ (m : ℚ) := Nat.cast_le.mpr h1
        linarith
      | false =>
        have hex : ∃ k : ℕ, i ≤ k ∧ k ≤ m ∧
            probe ((k : ℚ) * (1 / 10)) = Containment.inside := by
          rcases hcond with hb | hk
          · cases hb
          · exact hk
        obtain ⟨k, hk1, hk2, hk3⟩ := hex
        have hki : k ≠ i := by
          intro hrfl
          rw [hrfl, hc] at hk3
          cases hk3
        have him : i ≠ m := by
          intro hrfl
          omega
        rw [throughLoop_outside_false hc]
        obtain ⟨d, hd1, hd2⟩ := ih (i + 1) false m (by omega) (by omega) hout
          (Or.inr ⟨k, by omega, hk2, hk3⟩)
        exact ⟨d, hd1, hd2⟩

lemma thickBody_outside_iff {T d : ℚ} : thickBody T d = Containment.outside ↔ T < d := by
  unfold thickBody
  by_cases h1 : d < T
  · rw [if_pos h1]
    constructor
    · intro h; cases h
    · intro h; linarith
  · rw [if_neg h1]
    by_cases h2 : d = T
    · rw [if_pos h2]
      constructor
      · intro h; cases h
      · intro h
        exfalso
        rw [h2] at h
        exact lt_irrefl T h
    · rw [if_neg h2]
      constructor
      · intro _
        rcases lt_trichotomy d T with h | h | h
        · exact absurd h h1
        · exact absurd h h2
        · exact h
      · intro _
        rfl

lemma thickBody_inside_of {T d : ℚ} (h : d < T) : thickBody T d = Containment.inside := by
  unfold thickBody
  rw [if_pos h]

/-- **C3 (amended)**: for a slab of thickness `T` (cm) along the probe axis
with `0.1 < T ≤ 99.9`, the through-bore march returns a value in the *closed*
interval `[T, T + step + margin]` — in fact in `(T + margin, T + step + margin]`.
(The original half-open bound `< T + step + margin` fails when `T` is an exact
multiple of the 1 mm step; see the counterexample.) -/
theorem findDistanceThroughBody_slab (T : ℚ) (hT1 : 1 / 10 < T) (hT2 : T ≤ 999 / 10) :
    T < findDistanceThroughBody (thickBody T) ∧
    findDistanceThroughBody (thickBody T) ≤ T + 1 / 10 + 2 / 10 := by
  have hT0 : (0 : ℚ) ≤ 10 * T := by linarith
  have hm_gt : 10 * T < ((Nat.floor (10 * T) + 1 : ℕ) : ℚ) := by
    push_cast
    exact Nat.lt_floor_add_one (10 * T)
  have hm_le : ((Nat.floor (10 * T) + 1 : ℕ) : ℚ) ≤ 10 * T + 1 := by
    push_cast
    have := Nat.floor_le hT0
    linarith
  have hm_out : thickBody T (((Nat.floor (10 * T) + 1 : ℕ) : ℚ) * (1 / 10)) =
      Containment.outside := by
    rw [thickBody_outside_iff]
    linarith
  have hm_cap : Nat.floor (10 * T) + 1 < 1 + 1000 := by
    have h999 : Nat.floor (10 * T) ≤ 999 := by
      have : Nat.floor (10 * T) ≤ Nat.floor ((999 : ℚ)) := Nat.floor_mono (by linarith)
      simpa using this
    omega
  have hk_in : thickBody T ((1 : ℚ) * (1 / 10)) = Containment.inside :=
    thickBody_inside_of (by norm_num; linarith)
  obtain ⟨d, hloop, hdle⟩ := throughLoop_complete 1000 1 false (Nat.floor (10 * T) + 1)
    (by omega) hm_cap hm_out
    (Or.inr ⟨1, le_refl 1, by omega, by exact_mod_cast hk_in⟩)
  obtain ⟨j, hdj, _, _, hdout⟩ := throughLoop_sound 1000 1 false d hloop
  have hdT : T < d := by
    rw [thickBody_outside_iff] at hdout
    exact hdout
  have hdle2 : d ≤ T + 1 / 10 := by
    have := hm_le
    nlinarith [hdle]
  unfold findDistanceThroughBody
  rw [hloop]
  constructor
  · linarith
  · linarith

/-- C3 amended claim at a concrete input: a 5 mm slab. -/
theorem findDistanceThroughBody_slab_witness :
    (1 / 10 : ℚ) < 1 / 2 ∧ (1 / 2 : ℚ) ≤ 999 / 10 ∧
    ((1 / 2 : ℚ) < findDistanceThroughBody (thickBody (1 / 2)) ∧
      findDistanceThroughBody (thickBody (1 / 2)) ≤ 1 / 2 + 1 / 10 + 2 / 10) :=
  ⟨by norm_num, by norm_num,
    findDistanceThroughBody_slab (1 / 2) (by norm_num) (by norm_num)⟩

/-- C3 as stated is false at a grid-aligned thickness: for a 10 mm slab
(`T = 1` cm) the exit sample is at `1.1` cm, so the function returns exactly
`1.3 = T + step + margin` cm, which is outside the claimed half-open interval
`[T, T + step + margin)`. -/
theorem findDistanceThroughBody_intervalCounterexample :
    findDistanceThroughBody (thickBody 1) = 13 / 10 ∧
    ¬ findDistanceThroughBody (thickBody 1) < 1 + 1 / 10 + 2 / 10 := by
  have hm_out : thickBody 1 ((11 : ℕ) * (1 / 10) : ℚ) = Containment.outside := by
    rw [thickBody_outside_iff]
    norm_num
  have hk_in : thickBody 1 ((1 : ℕ) * (1 / 10) : ℚ) = Containment.inside := by
    apply thickBody_inside_of
    norm_num
  obtain ⟨d, hloop, hdle⟩ := throughLoop_complete 1000 1 false 11
    (by omega) (by omega) hm_out (Or.inr ⟨1, le_refl 1, by omega, hk_in⟩)
  obtain ⟨j, hdj, _, _, hdout⟩ := throughLoop_sound 1000 1 false d hloop
  have hdT : (1 : ℚ) < d := thickBody_outside_iff.mp hdout
  have hj_gt : (10 : ℚ) < (j : ℚ) := by
    rw [hdj] at hdT
    linarith
  have hj_ge : 11 ≤ j := by
    have : 10 < j := by exact_mod_cast hj_gt
    omega
  have hj_le : j ≤ 11 := by
    have hq : (j : ℚ) ≤ 11 := by
      rw [hdj] at hdle
      push_cast at hdle
      linarith
    exact_mod_cast hq
  have hj : j = 11 := le_antisymm hj_le hj_ge
  have hd : d = 11 / 10 := by
    rw [hdj, hj]
    push_cast
    norm_num
  unfold findDistanceThroughBody
  rw [hloop, hd]
  norm_num

/-! ### Lemmas and claims for the Feature Edge Locator -/

lemma foldlMin_mem :
    ∀ (xs : List (Edge × ℚ)) (x : Edge × ℚ),
      xs.foldl (fun b y => if y.2 < b.2 then y else b) x ∈ x :: xs := by
  intro xs
  induction xs with
  | nil => intro x; simp
  | cons y ys ih =>
    intro x
    simp only [List.foldl_cons]
    by_cases hc : y.2 < x.2
    · rw [if_pos hc]
      exact List.mem_cons_of_mem x (ih y)
    · rw [if_neg hc]
      rcases List.mem_cons.mp (ih x) with h | h
      · rw [h]
        exact List.mem_cons_self _ _
      · exact List.mem_cons_of_mem _ (List.mem_cons_of_mem _ h)

lemma foldlMin_le :
    ∀ (xs : List (Edge × ℚ)) (x : Edge × ℚ),
      (xs.foldl (fun b y => if y.2 < b.2 then y else b) x).2 ≤ x.2 ∧
        ∀ y ∈ xs, (xs.foldl (fun b y => if y.2 < b.2 then y else b) x).2 ≤ y.2 := by
  intro xs
  induction xs with
  | nil =>
    intro x
    exact ⟨le_refl _, by simp⟩
  | cons y ys ih =>
    intro x
    simp only [List.foldl_cons]
    have hstep_x : (if y.2 < x.2 then y else x).2 ≤ x.2 := by
      by_cases hc : y.2 < x.2
      · rw [if_pos hc]; exact le_of_lt hc
      · rw [if_neg hc]
    have hstep_y : (if y.2 < x.2 then y else x).2 ≤ y.2 := by
      by_cases hc : y.2 < x.2
      · rw [if_pos hc]
      · rw [if_neg hc]; exact le_of_not_lt hc
    obtain ⟨ih1, ih2⟩ := ih (if y.2 < x.2 then y else x)
    refine ⟨le_trans ih1 hstep_x, ?_⟩
    intro z hz
    rcases List.mem_cons.mp hz with rfl | hz
    · exact le_trans ih1 hstep_y
    · exact ih2 z hz

lemma foldlMax_mem :
    ∀ (xs : List (Edge × ℚ)) (x : Edge × ℚ),
      xs.foldl (fun b y => if b.2 < y.2 then y else b) x ∈ x :: xs := by
  intro xs
  induction xs with
  | nil => intro x; simp
  | cons y ys ih =>
    intro x
    simp only [List.foldl_cons]
    by_cases hc : x.2 < y.2
    · rw [if_pos hc]
      exact List.mem_cons_of_mem x (ih y)
    · rw [if_neg hc]
      rcases List.mem_cons.mp (ih x) with h | h
      · rw [h]
        exact List.mem_cons_self _ _
      · exact List.mem_cons_of_mem _ (List.mem_cons_of_mem _ h)

lemma foldlMax_ge :
    ∀ (xs : List (Edge × ℚ)) (x : Edge × ℚ),
      x.2 ≤ (xs.foldl (fun b y => if b.2 < y.2 then y else b) x).2 ∧
        ∀ y ∈ xs, y.2 ≤ (xs.foldl (fun b y => if b.2 < y.2 then y else b) x).2 := by
  intro xs
  induction xs with
  | nil =>
    intro x
    exact ⟨le_refl _, by simp⟩
  | cons y ys ih =>
    intro x
    simp only [List.foldl_cons]
    have hstep_x : x.2 ≤ (if x.2 < y.2 then y else x).2 := by
      by_cases hc : x.2 < y.2
      · rw [if_pos hc]; exact le_of_lt hc
      · rw [if_neg hc]
    have hstep_y : y.2 ≤ (if x.2 < y.2 then y else x).2 := by
      by_cases hc : x.2 < y.2
      · rw [if_pos hc]
      · rw [if_neg hc]; exact le_of_not_lt hc
    obtain ⟨ih1, ih2⟩ := ih (if x.2 < y.2 then y else x)
    refine ⟨le_trans hstep_x ih1, ?_⟩
    intro z hz
    rcases List.mem_cons.mp hz with rfl | hz
    · exact le_trans hstep_y ih1
    · exact ih2 z hz

lemma pickFirstMin_spec {l : List (Edge × ℚ)} {p : Edge × ℚ} (hp : p ∈ l) :
    ∃ q, pickFirstMin l = some q ∧ q ∈ l ∧ q.2 ≤ p.2 := by
  cases l with
  | nil => cases hp
  | cons x xs =>
    refine ⟨_, rfl, foldlMin_mem xs x, ?_⟩
    obtain ⟨h1, h2⟩ := foldlMin_le xs x
    rcases List.mem_cons.mp hp with rfl | hp
    · exact h1
    · exact h2 p hp

lemma pickFirstMax_spec {l : List (Edge × ℚ)} {p : Edge × ℚ} (hp : p ∈ l) :
    ∃ q, pickFirstMax l = some q ∧ q ∈ l ∧ p.2 ≤ q.2 := by
  cases l with
  | nil => cases hp
  | cons x xs =>
    refine ⟨_, rfl, foldlMax_mem xs x, ?_⟩
    obtain ⟨h1, h2⟩ := foldlMax_ge xs x
    rcases List.mem_cons.mp hp with rfl | hp
    · exact h1
    · exact h2 p hp

/-- **C4** (edge selection extremes): among the filter survivors, the
entry-mode locator returns a candidate of minimal axial distance and the
bottom-mode locator one of maximal axial distance; in particular, for exactly
two surviving edges at distances `d1 < d2`, entry mode returns the `d1` edge
and bottom mode the `d2` edge. -/
theorem edgeSelection_extremes :
    (∀ (edges : List Edge) (c z : Vec3) (r : ℚ) (p : Edge × ℚ),
      p ∈ chamferCandidates edges c z r →
      ∃ q, q ∈ chamferCandidates edges c z r ∧
        findChamferEdge edges c z r = some q.1 ∧ q.2 ≤ p.2) ∧
    (∀ (edges : List Edge) (c z : Vec3) (r : ℚ) (p : Edge × ℚ),
      p ∈ bottomCandidates edges c z r →
      ∃ q, q ∈ bottomCandidates edges c z r ∧
        addBottomRadiusToBlindHole edges c z r = some q.1 ∧ p.2 ≤ q.2) ∧
    (∀ (edges : List Edge) (c z : Vec3) (r : ℚ) (e1 e2 : Edge) (d1 d2 : ℚ), d1 < d2 →
      (chamferCandidates edges c z r = [(e1, d1), (e2, d2)] →
        findChamferEdge edges c z r = some e1) ∧
      (bottomCandidates edges c z r = [(e1, d1), (e2, d2)] →
        addBottomRadiusToBlindHole edges c z r = some e2)) := by
  refine ⟨?_, ?_, ?_⟩
  · intro edges c z r p hp
    obtain ⟨q, hq1, hq2, hq3⟩ := pickFirstMin_spec hp
    exact ⟨q, hq2, by rw [findChamferEdge, hq1]; rfl, hq3⟩
  · intro edges c z r p hp
    obtain ⟨q, hq1, hq2, hq3⟩ := pickFirstMax_spec hp
    exact ⟨q, hq2, by rw [addBottomRadiusToBlindHole, hq1]; rfl, hq3⟩
  · intro edges c z r e1 e2 d1 d2 hd
    constructor
    · intro hc
      rw [findChamferEdge, hc]
      show (some ([(e2, d2)].foldl (fun b y => if y.2 < b.2 then y else b) (e1, d1))).map
        (·.1) = some e1
      simp only [List.foldl_cons, List.foldl_nil]
      rw [if_neg (lt_asymm hd)]
      rfl
    · intro hc
      rw [addBottomRadiusToBlindHole, hc]
      show (some ([(e2, d2)].foldl (fun b y => if b.2 < y.2 then y else b) (e1, d1))).map
        (·.1) = some e2
      simp only [List.foldl_cons, List.foldl_nil]
      rw [if_pos hd]
      rfl

/-- Concrete two-edge fixture: the bore's entry edge at axial distance `0` and
its bottom edge at axial distance `1` cm, both of radius `1` cm on the axis
through the origin along `z`. -/
def entryEdge : Edge := ⟨1, Curve3D.circle ⟨0, 0, 0⟩ 1 ⟨0, 0, 1⟩⟩

def bottomEdge : Edge := ⟨2, Curve3D.circle ⟨0, 0, 1⟩ 1 ⟨0, 0, 1⟩⟩

lemma twoEdge_chamferCandidates :
    chamferCandidates [entryEdge, bottomEdge] ⟨0, 0, 0⟩ ⟨0, 0, 1⟩ 1 =
      [(entryEdge, 0), (bottomEdge, 1)] := by
  simp only [chamferCandidates, List.filterMap_cons, List.filterMap_nil, entryEdge,
    bottomEdge, dot3, sub3, normSq3, ratAbs]
  norm_num

lemma twoEdge_bottomCandidates :
    bottomCandidates [entryEdge, bottomEdge] ⟨0, 0, 0⟩ ⟨0, 0, 1⟩ 1 =
      [(entryEdge, 0), (bottomEdge, 1)] := by
  simp only [bottomCandidates, List.filterMap_cons, List.filterMap_nil, entryEdge,
    bottomEdge, dot3, sub3, normSq3, ratAbs]
  norm_num

/-- C4 at a concrete input: with the two-edge fixture, entry mode picks the
edge at distance `0` and bottom mode the edge at distance `1`. -/
theorem edgeSelection_extremes_witness :
    (0 : ℚ) < 1 ∧
    findChamferEdge [entryEdge, bottomEdge] ⟨0, 0, 0⟩ ⟨0, 0, 1⟩ 1 = some entryEdge ∧
    addBottomRadiusToBlindHole [entryEdge, bottomEdge] ⟨0, 0, 0⟩ ⟨0, 0, 1⟩ 1 =
      some bottomEdge :=
  ⟨by norm_num,
    ((edgeSelection_extremes.2.2 [entryEdge, bottomEdge] ⟨0, 0, 0⟩ ⟨0, 0, 1⟩ 1
      entryEdge bottomEdge 0 1 (by norm_num)).1 twoEdge_chamferCandidates),
    ((edgeSelection_extremes.2.2 [entryEdge, bottomEdge] ⟨0, 0, 0⟩ ⟨0, 0, 1⟩ 1
      entryEdge bottomEdge 0 1 (by norm_num)).2 twoEdge_bottomCandidates)⟩

/-- **C7 (amended)**: an edge survives the chamfer-edge filter iff it is
circular, its radius matches within `0.001` cm (0.01 mm), its normal has
absolute dot with the axis at least `0.99`, and `vec.length - abs(projection)`
is at most `0.01` cm (stated in squared form) — the source's proxy for the
axis test, *not* the true perpendicular distance; an edge survives the
bottom-edge filter iff it is circular, its radius matches within `0.005` cm
(0.05 mm), its absolute dot is at least `0.95`, and its true squared
perpendicular distance from the axis is at most `0.05^2` cm².  Each survivor
carries its absolute axial distance. -/
theorem featureEdgeFilter_pipeline (edges : List Edge) (c z : Vec3) (r : ℚ)
    (e : Edge) (d : ℚ) :
    ((e, d) ∈ chamferCandidates edges c z r ↔
      e ∈ edges ∧ ∃ ec er en, e.geom = Curve3D.circle ec er en ∧
        ratAbs (er - r) ≤ 1 / 1000 ∧
        99 / 100 ≤ ratAbs (dot3 en z) ∧
        normSq3 (sub3 ec c) ≤
          (ratAbs (dot3 (sub3 ec c) z) + 1 / 100) * (ratAbs (dot3 (sub3 ec c) z) + 1 / 100) ∧
        d = ratAbs (dot3 (sub3 ec c) z)) ∧
    ((e, d) ∈ bottomCandidates edges c z r ↔
      e ∈ edges ∧ ∃ ec er en, e.geom = Curve3D.circle ec er en ∧
        ratAbs (er - r) ≤ 5 / 1000 ∧
        95 / 100 ≤ ratAbs (dot3 en z) ∧
        normSq3 (sub3 ec c) - ratAbs (dot3 (sub3 ec c) z) * ratAbs (dot3 (sub3 ec c) z) ≤
          1 / 400 ∧
        d = ratAbs (dot3 (sub3 ec c) z)) := by
  constructor
  · rw [chamferCandidates, List.mem_filterMap]
    constructor
    · rintro ⟨a, ha, hfa⟩
      obtain ⟨aid, ageom⟩ := a
      cases ageom with
      | other => cases hfa
      | circle ec er en =>
        simp only at hfa
        split_ifs at hfa with h1 h2 h3
        simp only [Option.some.injEq, Prod.mk.injEq] at hfa
        obtain ⟨rfl, rfl⟩ := hfa
        exact ⟨ha, ec, er, en, rfl, le_of_not_lt h1, le_of_not_lt h2,
          le_of_not_lt h3, rfl⟩
    · rintro ⟨he, ec, er, en, hg, h1, h2, h3, hd⟩
      refine ⟨e, he, ?_⟩
      obtain ⟨eid, egeom⟩ := e
      simp only at hg
      subst hg
      simp only
      rw [if_neg (not_lt.mpr h1), if_neg (not_lt.mpr h2), if_neg (not_lt.mpr h3), hd]
  · rw [bottomCandidates, List.mem_filterMap]
    constructor
    · rintro ⟨a, ha, hfa⟩
      obtain ⟨aid, ageom⟩ := a
      cases ageom with
      | other => cases hfa
      | circle ec er en =>
        simp only at hfa
        split_ifs at hfa with h1 h2 h3
        simp only [Option.some.injEq, Prod.mk.injEq] at hfa
        obtain ⟨rfl, rfl⟩ := hfa
        exact ⟨ha, ec, er, en, rfl, le_of_not_lt h1, le_of_not_lt h2,
          le_of_not_lt h3, rfl⟩
    · rintro ⟨he, ec, er, en, hg, h1, h2, h3, hd⟩
      refine ⟨e, he, ?_⟩
      obtain ⟨eid, egeom⟩ := e
      simp only at hg
      subst hg
      simp only
      rw [if_neg (not_lt.mpr h1), if_neg (not_lt.mpr h2), if_neg (not_lt.mpr h3), hd]

/-- An edge whose center is `0.02` cm off the bore axis (true perpendicular
distance `0.02 > 0.01` cm) but whose proxy test value
`vec.length - abs(projection) = 0.052 - 0.048 = 0.004` cm passes the chamfer
filter, because the vector `(0.02, 0, 0.048)` has exact length `0.052`. -/
def offAxisEdge : Edge := ⟨7, Curve3D.circle ⟨2 / 100, 0, 48 / 1000⟩ 1 ⟨0, 0, 1⟩⟩

/-- C7 as stated is false for the chamfer filter: `offAxisEdge` survives the
chamfer-edge filter although the true perpendicular distance of its center
from the bore axis exceeds `0.01` cm (its square `0.0004 > 0.0001` cm²). -/
theorem featureEdgeFilter_counterexample :
    (offAxisEdge, 48 / 1000) ∈
      chamferCandidates [offAxisEdge] ⟨0, 0, 0⟩ ⟨0, 0, 1⟩ 1 ∧
    (1 / 100 : ℚ) * (1 / 100) <
      axisDistSq ⟨0, 0, 0⟩ ⟨0, 0, 1⟩ ⟨2 / 100, 0, 48 / 1000⟩ := by
  constructor
  · have : chamferCandidates [offAxisEdge] ⟨0, 0, 0⟩ ⟨0, 0, 1⟩ 1 =
        [(offAxisEdge, 48 / 1000)] := by
      simp only [chamferCandidates, List.filterMap_cons, List.filterMap_nil, offAxisEdge,
        dot3, sub3, normSq3, ratAbs]
      norm_num
    rw [this]
    exact List.mem_singleton.mpr rfl
  · norm_num [axisDistSq, normSq3, dot3, sub3]

/-! ### Lemmas and claims for the Hole Creation Orchestrator -/

lemma runPoints_spec (profileOf : ℕ → Option (List Profile)) (dirOf : ℕ → Option Dir) :
    ∀ (pts : List ℕ) (init : List ℕ) (sc fc : ℕ), pts.Nodup →
      (∀ p ∈ pts, p ∉ init) →
      runPoints profileOf dirOf ⟨init, sc, fc⟩ pts =
        ⟨init ++ pts.filter (fun p => ! pointFails profileOf dirOf p),
          sc + (pts.filter (fun p => ! pointFails profileOf dirOf p)).length,
          fc + (pts.filter (fun p => pointFails profileOf dirOf p)).length⟩ := by
  intro pts
  induction pts with
  | nil =>
    intro init sc fc _ _
    simp [runPoints]
  | cons p pts ih =>
    intro init sc fc hnd hfresh
    have hp_init : p ∉ init := hfresh p (List.mem_cons_self p pts)
    have hnd2 : pts.Nodup := (List.nodup_cons.mp hnd).2
    have hp_pts : p ∉ pts := (List.nodup_cons.mp hnd).1
    have herase : (init ++ [p]).erase p = init := by
      rw [List.erase_append_right _ hp_init, List.erase_cons_head, List.append_nil]
    show runPoints profileOf dirOf (processPoint profileOf dirOf ⟨init, sc, fc⟩ p) pts = _
    by_cases hfail : pointFails profileOf dirOf p = true
    · have hproc : processPoint profileOf dirOf ⟨init, sc, fc⟩ p = ⟨init, sc, fc + 1⟩ := by
        unfold processPoint
        unfold pointFails at hfail
        cases hpf : profileOf p with
        | none =>
          simp only [hpf]
          rw [herase]
        | some prs =>
          rw [hpf] at hfail
          cases hdir : dirOf p with
          | none =>
            simp only [hpf, hdir]
            rw [herase]
          | some dir =>
            rw [hdir] at hfail
            simp at hfail
      rw [hproc, ih init sc (fc + 1) hnd2
        (fun q hq => hfresh q (List.mem_cons_of_mem p hq))]
      have hf1 : List.filter (fun q => pointFails profileOf dirOf q) (p :: pts) =
          p :: List.filter (fun q => pointFails profileOf dirOf q) pts := by
        simp [List.filter_cons, hfail]
      have hf2 : List.filter (fun q => ! pointFails profileOf dirOf q) (p :: pts) =
          List.filter (fun q => ! pointFails profileOf dirOf q) pts := by
        simp [List.filter_cons, hfail]
      rw [hf1, hf2]
      simp only [OrchState.mk.injEq, List.length_cons]
      refine ⟨trivial, trivial, by omega⟩
    · have hok : pointFails profileOf dirOf p = false := Bool.eq_false_iff.mpr hfail
      have hproc : processPoint profileOf dirOf ⟨init, sc, fc⟩ p =
          ⟨init ++ [p], sc + 1, fc⟩ := by
        unfold processPoint
        unfold pointFails at hok
        cases hpf : profileOf p with
        | none =>
          rw [hpf] at hok
          cases hok
        | some prs =>
          rw [hpf] at hok
          cases hdir : dirOf p with
          | none =>
            rw [hdir] at hok
            simp at hok
          | some dir =>
            simp only [hpf, hdir]
      rw [hproc, ih (init ++ [p]) (sc + 1) fc hnd2 (fun q hq => by
        rw [List.mem_append]
        rintro (hq1 | hq2)
        · exact hfresh q (List.mem_cons_of_mem p hq) hq1
        · rw [List.mem_singleton.mp hq2] at hq
          exact hp_pts hq)]
      have hf1 : List.filter (fun q => pointFails profileOf dirOf q) (p :: pts) =
          List.filter (fun q => pointFails profileOf dirOf q) pts := by
        simp [List.filter_cons, hok]
      have hf2 : List.filter (fun q => ! pointFails profileOf dirOf q) (p :: pts) =
          p :: List.filter (fun q => ! pointFails profileOf dirOf q) pts := by
        simp [List.filter_cons, hok]
      rw [hf1, hf2]
      simp only [OrchState.mk.injEq, List.length_cons]
      refine ⟨by rw [List.append_assoc]; rfl, by omega, trivial⟩

/-- **C8** (cleanup invariant): processing the selected points from an empty
model, every point for which profile resolution returns `None` or direction
inference returns `None` has its constructed circle absent from the final
model state and is counted in `failedCount`; the successes are exactly the
remaining points. -/
theorem orchestrator_cleanupInvariant (profileOf : ℕ → Option (List Profile))
    (dirOf : ℕ → Option Dir) (pts : List ℕ) (hnd : pts.Nodup) :
    (∀ p ∈ pts, pointFails profileOf dirOf p = true →
      p ∉ (runPoints profileOf dirOf ⟨[], 0, 0⟩ pts).circles) ∧
    (runPoints profileOf dirOf ⟨[], 0, 0⟩ pts).failedCount =
      (pts.filter (fun p => pointFails profileOf dirOf p)).length ∧
    (runPoints profileOf dirOf ⟨[], 0, 0⟩ pts).successCount =
      (pts.filter (fun p => ! pointFails profileOf dirOf p)).length := by
  rw [runPoints_spec profileOf dirOf pts [] 0 0 hnd (by simp)]
  refine ⟨?_, by simp, by simp⟩
  intro p _ hfail hmem
  simp only [List.nil_append, List.mem_filter] at hmem
  rw [hfail] at hmem
  cases hmem.2

/-- Profile oracle failing exactly at point 1. -/
def witProfileOf : ℕ → Option (List Profile) := fun p => if p = 1 then none else some []

/-- Direction oracle failing exactly at point 2. -/
def witDirOf : ℕ → Option Dir := fun p => if p = 2 then none else some Dir.positive

/-- C8 at a concrete input: of points `1, 2, 3`, point 1 fails at profile
resolution, point 2 at direction inference; neither circle remains, both are
counted failed, and point 3 is the one success. -/
theorem orchestrator_cleanupInvariant_witness :
    ([1, 2, 3] : List ℕ).Nodup ∧
    ((∀ p ∈ ([1, 2, 3] : List ℕ), pointFails witProfileOf witDirOf p = true →
        p ∉ (runPoints witProfileOf witDirOf ⟨[], 0, 0⟩ [1, 2, 3]).circles) ∧
      (runPoints witProfileOf witDirOf ⟨[], 0, 0⟩ [1, 2, 3]).failedCount =
        (([1, 2, 3] : List ℕ).filter (fun p => pointFails witProfileOf witDirOf p)).length ∧
      (runPoints witProfileOf witDirOf ⟨[], 0, 0⟩ [1, 2, 3]).successCount =
        (([1, 2, 3] : List ℕ).filter (fun p => ! pointFails witProfileOf witDirOf p)).length) :=
  ⟨by decide, orchestrator_cleanupInvariant witProfileOf witDirOf [1, 2, 3] (by decide)⟩

/-! ### Claim for the blind-hole cut parameters -/

/-- **C9** (blind-hole depth formula): for any catalog entry, the blind-hole
cut depth is `(insert_length + extra_depth) / 10` cm and the bore diameter is
`hole_diameter / 10` cm; for insert "M3 x 5.7mm (standard)" with 1 mm extra
depth this gives depth `0.67` cm (6.7 mm) and diameter `0.44` cm (4.4 mm). -/
theorem blindHole_depthFormula :
    (∀ (specs : List (String × ℚ × ℚ × ℚ)) (name : String)
        (holeDia insertLen minWall extra : ℚ),
      specs.lookup name = some (holeDia, insertLen, minWall) →
      blindHoleCut specs name extra = some ((insertLen + extra) / 10, holeDia / 10)) ∧
    blindHoleCut INSERT_SPECS "M3 x 5.7mm (standard)" 1 = some (67 / 100, 11 / 25) := by
  constructor
  · intro specs name holeDia insertLen minWall extra h
    unfold blindHoleCut
    rw [h]
    simp only [Option.some.injEq, Prod.mk.injEq]
    exact ⟨by trivial, by ring⟩
  · have h1 : ("M3 x 5.7mm (standard)" == "M2 x 3mm") = false := by decide
    have h2 : ("M3 x 5.7mm (standard)" == "M2.5 x 4mm") = false := by decide
    have h3 : ("M3 x 5.7mm (standard)" == "M3 x 3mm (short)") = false := by decide
    have h4 : ("M3 x 5.7mm (standard)" == "M3 x 4mm (short)") = false := by decide
    have h5 : ("M3 x 5.7mm (standard)" == "M3 x 5.7mm (standard)") = true := by decide
    have hlk : INSERT_SPECS.lookup "M3 x 5.7mm (standard)" =
        some (22 / 5, 57 / 10, 8 / 5) := by
      simp only [INSERT_SPECS, List.lookup, h1, h2, h3, h4, h5]
    unfold blindHoleCut
    rw [hlk]
    simp only [Option.some.injEq, Prod.mk.injEq]
    norm_num

/-- C9 at a concrete input: a custom one-entry catalog. -/
theorem blindHole_depthFormula_witness :
    (([("X", ((2 : ℚ), (3 : ℚ), (4 : ℚ)))] : List (String × ℚ × ℚ × ℚ)).lookup "X" =
      some (2, 3, 4)) ∧
    blindHoleCut [("X", (2, 3, 4))] "X" 5 = some ((3 + 5) / 10, 2 / 10) :=
  have hlk : (([("X", ((2 : ℚ), (3 : ℚ), (4 : ℚ)))] : List (String × ℚ × ℚ × ℚ)).lookup
      "X" = some (2, 3, 4)) := by
    simp only [List.lookup, show ("X" == "X") = true from by decide]
  ⟨hlk, blindHole_depthFormula.1 [("X", (2, 3, 4))] "X" 2 3 4 5 hlk⟩

end ThreadMeister
